import Mathlib

set_option linter.unusedTactic false
set_option linter.unreachableTactic false

/-!
# go-multiplex-test: admission gate and worker-pool dispatcher

A shallow embedding of `internal/semaphore/semaphore.go` and of
`internal/server/handlers/collector.go`.

* A Go channel used as a counting semaphore is a record of its capacity, the
  number of buffered elements and the number of goroutines parked in a receive.
* `processRequests` is a small-step machine: the main goroutine and every worker
  goroutine carry a program counter, the two channels and the two contexts are
  shared state, and a schedule (a list of `Action`s) picks which goroutine moves.
* `post` is a function of the gate, the request and the schedule under which its
  dispatcher runs.
-/

namespace semaphore

/-- The package-level `ErrTimeout` value, the only error `Acquire` returns. -/
inductive Error where
  | ErrTimeout
  deriving DecidableEq, Repr

/-- State of a `chan struct{}`: capacity fixed by `make`, number of buffered
elements, number of goroutines blocked in a receive. -/
structure Chan where
  cap : Nat
  len : Nat
  recvq : Nat
  deriving DecidableEq, Repr

/-- The struct `Semaphore`, with `timeout` in nanoseconds. -/
structure Semaphore where
  timeout : Nat
  semChan : Chan
  deriving DecidableEq, Repr

/-- Go `New(maxConcur, timeout)`: `make(chan struct{}, maxConcur)` is an empty channel. -/
def New (maxConcur : Nat) (timeout : Nat) : Semaphore :=
  { timeout := timeout, semChan := { cap := maxConcur, len := 0, recvq := 0 } }

/-- Go `Acquire` when the timer case of its `select` is not taken while the send can
proceed, which is the only outcome as long as `s.timeout` has not elapsed when the
`select` polls its cases (the one second wait `NewCollector` configures): the `select`
sends on `semChan` when the send can proceed (a receiver is parked, or the buffer has
room) and returns `nil`; when the send cannot proceed for the whole wait window the
timer case fires and `ErrTimeout` is returned. `AcquireAt` adds the timer race. -/
def Acquire (s : Semaphore) : Option Error × Semaphore :=
  if 0 < s.semChan.recvq then
    (none, { s with semChan := { s.semChan with recvq := s.semChan.recvq - 1 } })
  else if s.semChan.len < s.semChan.cap then
    (none, { s with semChan := { s.semChan with len := s.semChan.len + 1 } })
  else
    (some Error.ErrTimeout, s)

/-- Go `Acquire` with the timer race of its `select`. `elapsed` is the time in
nanoseconds between the call `time.After(s.timeout)` and the moment the `select` polls
its cases, so the timer case is ready when `s.timeout ≤ elapsed`; `timerFirst` is the
pick of the runtime when the timer case is ready. A ready timer case that is picked
returns `ErrTimeout` with the gate untouched, also when the send could proceed;
otherwise the call behaves as `Acquire`. -/
def AcquireAt (elapsed : Nat) (timerFirst : Bool) (s : Semaphore) : Option Error × Semaphore :=
  if s.timeout ≤ elapsed ∧ timerFirst = true then (some Error.ErrTimeout, s) else Acquire s

/-- Go `Release`: `<-s.semChan`. With a buffered element the receive takes it and the
call returns (`true`); on an empty channel the goroutine parks (`false`) until a later
send hands it an element. -/
def Release (s : Semaphore) : Semaphore × Bool :=
  if 0 < s.semChan.len then
    ({ s with semChan := { s.semChan with len := s.semChan.len - 1 } }, true)
  else
    ({ s with semChan := { s.semChan with recvq := s.semChan.recvq + 1 } }, false)

/-- Number of tokens held in `semChan`. -/
def outstanding (s : Semaphore) : Nat := s.semChan.len

/-- A call made on the gate by some goroutine. -/
inductive Call where
  | acquire
  | release
  deriving DecidableEq, Repr

/-- Effect of one call on the gate. -/
def applyCall (s : Semaphore) : Call → Semaphore
  | Call.acquire => (Acquire s).2
  | Call.release => (Release s).1

/-- Effect of a finite sequence of calls, left to right. -/
def applyCalls (s : Semaphore) (cs : List Call) : Semaphore :=
  cs.foldl applyCall s

/-- The gate after `n` consecutive `Acquire` calls. -/
def acquireN : Nat → Semaphore → Semaphore
  | 0, s => s
  | n + 1, s => acquireN n (Acquire s).2

/-- The gate after consecutive `AcquireAt` calls, one per entry of the list: the time
elapsed at the `select` of that call and the pick of the runtime. -/
def acquireAtN : List (Nat × Bool) → Semaphore → Semaphore
  | [], s => s
  | o :: os, s => acquireAtN os (AcquireAt o.1 o.2 s).2

/-- Channel well-formedness: the buffer never exceeds its capacity and receivers
are only parked on an empty buffer. -/
def WF (s : Semaphore) : Prop :=
  s.semChan.len ≤ s.semChan.cap ∧ (0 < s.semChan.recvq → s.semChan.len = 0)

instance (s : Semaphore) : Decidable (WF s) := by
  unfold WF; infer_instance

end semaphore

namespace handlers

open semaphore

def notAllowedMethodErrMsg : String := "allowed only POST method"
def requestLimitErrMsg : String := "exceeded simultaneous request limit"
def urlLimitErrMsg : String := "exceeded maximum URLs per request"
def outcomeErrMsg : String := "failed to perform outcome requests"

set_option linter.dupNamespace false in
/-- The struct `Payload`: a fetched URL and the body read from it. -/
structure Payload where
  URL : String
  Payload : String
  deriving DecidableEq, Repr

/-- The struct `Collector`; `reqPool` is the state of the gate it points to and
`outTimeout` is in nanoseconds. -/
structure Collector where
  OutConnPool : Int
  MaxURLs : Int
  outTimeout : Nat
  reqPool : Semaphore
  deriving DecidableEq, Repr

/-- Go conversion `int(u)` of a 64-bit `uint`. -/
def toInt (u : Nat) : Int :=
  if u % 2 ^ 64 < 2 ^ 63 then ((u % 2 ^ 64 : Nat) : Int) else ((u % 2 ^ 64 : Nat) : Int) - 2 ^ 64

/-- Go `NewCollector`: the gate waits one second. -/
def NewCollector (maxReq maxOutConn maxURLs : Nat) (timeout : Nat) : Collector :=
  { OutConnPool := toInt maxOutConn
    MaxURLs := toInt maxURLs
    outTimeout := timeout
    reqPool := New maxReq (1000000000 * 1) }

/-- The error `rCtx.Err()` of a context that is done. -/
inductive CtxError where
  | Canceled
  deriving DecidableEq, Repr

/-- Program counter of one worker goroutine of `processRequests`. -/
inductive Worker where
  /-- At `for url := range tasksChan`, about to receive. -/
  | recv
  /-- Holding `url`, at the `select` on `ctx.Done()`. -/
  | sel (url : String)
  /-- Inside `request(rCtx, url, client, c.outTimeout)`. -/
  | req (url : String)
  /-- At `outChan <- rp`. -/
  | send (rp : Payload)
  /-- Returned; the deferred `wg.Done()` has run. -/
  | exited
  deriving DecidableEq, Repr

/-- Program counter of the goroutine that runs `processRequests`. -/
inductive Main where
  /-- At the head of `for i := 0; i < c.OutConnPool; i++`. -/
  | spawn (i : Nat)
  /-- In `for _, url := range urls`, the listed URLs still to be sent; with none left,
  at `close(inChan)`. -/
  | feed (rest : List String)
  /-- At `wg.Wait()`. -/
  | wait
  /-- At `close(outChan)`. -/
  | closeOut
  /-- At the `select` on `rCtx.Done()`. -/
  | check
  /-- In `for r := range outChan`. -/
  | drain
  /-- Returned with these values. -/
  | returned (respPload : List Payload) (err : Option CtxError)
  deriving DecidableEq, Repr

/-- Shared state of one `processRequests` call. `taken`, `calls` and `failed` are
history logs: URLs received from `inChan`, URLs on which `request` was invoked, URLs
whose `request` call returned an error. -/
structure State where
  main : Main
  workers : List Worker
  inChan : List String
  inCap : Nat
  inClosed : Bool
  outChan : List Payload
  outCap : Nat
  outClosed : Bool
  ctxDone : Bool
  cancelled : Bool
  respPload : List Payload
  taken : List String
  calls : List String
  failed : List String
  deriving DecidableEq, Repr

/-- The derived context `rCtx` is done when the caller's context is done or
`outCtxCancel` has been called. -/
def State.rCtxDone (s : State) : Bool := s.ctxDone || s.cancelled

/-- State after `context.WithCancel`, `new(http.Client)` and the two `make` calls. -/
def init (urls : List String) : State :=
  { main := Main.spawn 0
    workers := []
    inChan := []
    inCap := urls.length
    inClosed := false
    outChan := []
    outCap := urls.length
    outClosed := false
    ctxDone := false
    cancelled := false
    respPload := []
    taken := []
    calls := []
    failed := [] }

/-- Who moves next: the main goroutine, worker `i`, worker `i` with its in-flight
`request` failing because `rCtx` is done, or the caller cancelling its context. -/
inductive Action where
  | main
  | work (i : Nat)
  | abort (i : Nat)
  | cancel
  deriving DecidableEq, Repr

/-- One statement of the main goroutine; `none` when it is blocked or has returned. -/
def stepMain (c : Collector) (urls : List String) (s : State) : Option State :=
  match s.main with
  | Main.spawn i =>
    if (i : Int) < c.OutConnPool then
      some { s with workers := s.workers ++ [Worker.recv], main := Main.spawn (i + 1) }
    else
      some { s with main := Main.feed urls }
  | Main.feed (url :: rest) =>
    if s.inChan.length < s.inCap then
      some { s with inChan := s.inChan ++ [url], main := Main.feed rest }
    else
      none
  | Main.feed [] => some { s with inClosed := true, main := Main.wait }
  | Main.wait =>
    if s.workers.all (fun w => w == Worker.exited) then
      some { s with main := Main.closeOut }
    else
      none
  | Main.closeOut => some { s with outClosed := true, main := Main.check }
  | Main.check =>
    if s.rCtxDone then
      some { s with main := Main.returned s.respPload (some CtxError.Canceled) }
    else
      some { s with main := Main.drain }
  | Main.drain =>
    match s.outChan with
    | r :: rest => some { s with outChan := rest, respPload := s.respPload ++ [r] }
    | [] =>
      if s.outClosed then
        some { s with main := Main.returned s.respPload none }
      else
        none
  | Main.returned _ _ => none

/-- One statement of worker `i`; `none` when it is blocked, has returned, or does
not exist. `request` is the outcome of the outbound GET on a URL. -/
def stepWork (request : String → Option String) (i : Nat) (s : State) : Option State :=
  match s.workers[i]? with
  | some Worker.recv =>
    match s.inChan with
    | url :: rest =>
      some { s with inChan := rest, taken := s.taken ++ [url],
                    workers := s.workers.set i (Worker.sel url) }
    | [] =>
      if s.inClosed then
        some { s with workers := s.workers.set i Worker.exited }
      else
        none
  | some (Worker.sel url) =>
    if s.rCtxDone then
      some { s with workers := s.workers.set i Worker.exited }
    else
      some { s with calls := s.calls ++ [url], workers := s.workers.set i (Worker.req url) }
  | some (Worker.req url) =>
    match request url with
    | some response =>
      some { s with workers := s.workers.set i (Worker.send { URL := url, Payload := response }) }
    | none =>
      some { s with cancelled := true, failed := s.failed ++ [url],
                    workers := s.workers.set i Worker.exited }
  | some (Worker.send rp) =>
    if s.outChan.length < s.outCap then
      some { s with outChan := s.outChan ++ [rp], workers := s.workers.set i Worker.recv }
    else
      none
  | some Worker.exited => none
  | none => none

/-- Worker `i` is inside `request` and the call returns the context error: possible
only when `rCtx` is done. -/
def stepAbort (i : Nat) (s : State) : Option State :=
  match s.workers[i]? with
  | some (Worker.req url) =>
    if s.rCtxDone then
      some { s with cancelled := true, failed := s.failed ++ [url],
                    workers := s.workers.set i Worker.exited }
    else
      none
  | _ => none

/-- The caller's context becomes done. -/
def stepCancel (s : State) : Option State :=
  if s.ctxDone then none else some { s with ctxDone := true }

/-- One transition of the dispatcher. -/
def step (c : Collector) (request : String → Option String) (urls : List String)
    (a : Action) (s : State) : Option State :=
  match a with
  | Action.main => stepMain c urls s
  | Action.work i => stepWork request i s
  | Action.abort i => stepAbort i s
  | Action.cancel => stepCancel s

/-- Run a schedule; `none` when some action of it is not enabled. -/
def exec (c : Collector) (request : String → Option String) (urls : List String) :
    List Action → State → Option State
  | [], s => some s
  | a :: as, s => (step c request urls a s).bind (exec c request urls as)

/-- What a finished `processRequests` call hands back, with the logs of the `request`
calls made and of those that returned an error. -/
structure Outcome where
  respPload : List Payload
  err : Option CtxError
  calls : List String
  failed : List String
  deriving DecidableEq, Repr

/-- Go `processRequests` under a schedule: `none` when the schedule does not bring the
main goroutine to its `return`. -/
def processRequests (c : Collector) (request : String → Option String) (urls : List String)
    (sched : List Action) : Option Outcome :=
  match exec c request urls sched (init urls) with
  | some s =>
    match s.main with
    | Main.returned r e => some { respPload := r, err := e, calls := s.calls, failed := s.failed }
    | _ => none
  | none => none

/-- An HTTP request as `post` reads it. -/
structure Request where
  Method : String
  Body : String
  deriving DecidableEq, Repr

/-- What was written to the `http.ResponseWriter`. -/
structure Response where
  status : Nat
  body : String
  deriving DecidableEq, Repr

/-- Collaborators of the handler: the outbound GET, the JSON decoder of the request
body and `json.Marshal` of the result. -/
structure Env where
  request : String → Option String
  decode : String → Except String (List String)
  marshal : List Payload → Except String String

/-- Go `errorHandler`: writes the status, and the message unless the code is 500. -/
def errorHandler (errMsg : String) (errCode : Nat) : Response :=
  { status := errCode, body := if errCode ≠ 500 then errMsg else "" }

/-- A finished `post` call: the response, the gate afterwards, and counters of the
calls it made (`Acquire` calls, those that returned `nil`, `Release` calls,
`processRequests` calls) with the log of `request` calls. -/
structure PostResult where
  resp : Response
  reqPool : Semaphore
  acquireCalls : Nat
  acquired : Nat
  released : Nat
  dispatched : Nat
  fetched : List String
  deriving DecidableEq, Repr

/-- Body of `post` after the gate was acquired, up to its `return`: the response, the
number of `processRequests` calls and the `request` log. -/
def postBody (c : Collector) (env : Env) (r : Request) (sched : List Action) :
    Option (Response × Nat × List String) :=
  match env.decode r.Body with
  | Except.error e => some (errorHandler e 500, 0, [])
  | Except.ok urls =>
    if (urls.length : Int) > c.MaxURLs then
      some (errorHandler urlLimitErrMsg 400, 0, [])
    else
      match processRequests c env.request urls sched with
      | none => none
      | some o =>
        match o.err with
        | some _ => some (errorHandler outcomeErrMsg 504, 1, o.calls)
        | none =>
          match env.marshal o.respPload with
          | Except.error e => some (errorHandler e 500, 1, o.calls)
          | Except.ok payload => some ({ status := 200, body := payload }, 1, o.calls)

/-- Go `post`: `Acquire`, the deferred `Release`, then the body. `none` when the call
does not return (the dispatcher did not finish under `sched`, or `Release` parked). -/
def post (c : Collector) (env : Env) (r : Request) (sched : List Action) : Option PostResult :=
  match Acquire c.reqPool with
  | (some _, g) =>
    some { resp := errorHandler requestLimitErrMsg 429, reqPool := g,
           acquireCalls := 1, acquired := 0, released := 0, dispatched := 0, fetched := [] }
  | (none, g) =>
    match postBody c env r sched with
    | none => none
    | some (resp, n, log) =>
      match Release g with
      | (g2, true) =>
        some { resp := resp, reqPool := g2,
               acquireCalls := 1, acquired := 1, released := 1, dispatched := n, fetched := log }
      | (_, false) => none

/-- Go `ServeHTTP`: only POST reaches `post`. -/
def ServeHTTP (c : Collector) (env : Env) (r : Request) (sched : List Action) :
    Option PostResult :=
  if r.Method = "POST" then post c env r sched
  else
    some { resp := errorHandler notAllowedMethodErrMsg 405, reqPool := c.reqPool,
           acquireCalls := 0, acquired := 0, released := 0, dispatched := 0, fetched := [] }

end handlers

/-! ## Transition relation, history invariants and progress measure of the dispatcher -/

namespace handlers

/-- The transitions of `step`, one constructor per enabled branch. -/
inductive Step (c : Collector) (request : String → Option String) (urls : List String) :
    Action → State → State → Prop where
  | spawn (s : State) (i : Nat) (hm : s.main = Main.spawn i) (hlt : (i : Int) < c.OutConnPool) :
      Step c request urls Action.main s
        { s with workers := s.workers ++ [Worker.recv], main := Main.spawn (i + 1) }
  | startFeed (s : State) (i : Nat) (hm : s.main = Main.spawn i)
      (hge : ¬ (i : Int) < c.OutConnPool) :
      Step c request urls Action.main s { s with main := Main.feed urls }
  | feed (s : State) (url : String) (rest : List String) (hm : s.main = Main.feed (url :: rest))
      (hroom : s.inChan.length < s.inCap) :
      Step c request urls Action.main s
        { s with inChan := s.inChan ++ [url], main := Main.feed rest }
  | closeIn (s : State) (hm : s.main = Main.feed []) :
      Step c request urls Action.main s { s with inClosed := true, main := Main.wait }
  | waitDone (s : State) (hm : s.main = Main.wait) (hall : ∀ w ∈ s.workers, w = Worker.exited) :
      Step c request urls Action.main s { s with main := Main.closeOut }
  | closeOut (s : State) (hm : s.main = Main.closeOut) :
      Step c request urls Action.main s { s with outClosed := true, main := Main.check }
  | checkDone (s : State) (hm : s.main = Main.check) (hd : s.rCtxDone = true) :
      Step c request urls Action.main s
        { s with main := Main.returned s.respPload (some CtxError.Canceled) }
  | checkLive (s : State) (hm : s.main = Main.check) (hd : s.rCtxDone = false) :
      Step c request urls Action.main s { s with main := Main.drain }
  | drainOne (s : State) (r : Payload) (rest : List Payload) (hm : s.main = Main.drain)
      (ho : s.outChan = r :: rest) :
      Step c request urls Action.main s
        { s with outChan := rest, respPload := s.respPload ++ [r] }
  | drainEnd (s : State) (hm : s.main = Main.drain) (ho : s.outChan = [])
      (hc : s.outClosed = true) :
      Step c request urls Action.main s { s with main := Main.returned s.respPload none }
  | recv (s : State) (i : Nat) (url : String) (rest : List String)
      (hw : s.workers[i]? = some Worker.recv) (hi : s.inChan = url :: rest) :
      Step c request urls (Action.work i) s
        { s with inChan := rest, taken := s.taken ++ [url],
                 workers := s.workers.set i (Worker.sel url) }
  | recvClosed (s : State) (i : Nat) (hw : s.workers[i]? = some Worker.recv)
      (hi : s.inChan = []) (hc : s.inClosed = true) :
      Step c request urls (Action.work i) s { s with workers := s.workers.set i Worker.exited }
  | selDone (s : State) (i : Nat) (url : String) (hw : s.workers[i]? = some (Worker.sel url))
      (hd : s.rCtxDone = true) :
      Step c request urls (Action.work i) s { s with workers := s.workers.set i Worker.exited }
  | selLive (s : State) (i : Nat) (url : String) (hw : s.workers[i]? = some (Worker.sel url))
      (hd : s.rCtxDone = false) :
      Step c request urls (Action.work i) s
        { s with calls := s.calls ++ [url], workers := s.workers.set i (Worker.req url) }
  | reqOk (s : State) (i : Nat) (url response : String)
      (hw : s.workers[i]? = some (Worker.req url)) (hr : request url = some response) :
      Step c request urls (Action.work i) s
        { s with workers := s.workers.set i (Worker.send { URL := url, Payload := response }) }
  | reqFail (s : State) (i : Nat) (url : String) (hw : s.workers[i]? = some (Worker.req url))
      (hr : request url = none) :
      Step c request urls (Action.work i) s
        { s with cancelled := true, failed := s.failed ++ [url],
                 workers := s.workers.set i Worker.exited }
  | send (s : State) (i : Nat) (rp : Payload) (hw : s.workers[i]? = some (Worker.send rp))
      (hroom : s.outChan.length < s.outCap) :
      Step c request urls (Action.work i) s
        { s with outChan := s.outChan ++ [rp], workers := s.workers.set i Worker.recv }
  | abort (s : State) (i : Nat) (url : String) (hw : s.workers[i]? = some (Worker.req url))
      (hd : s.rCtxDone = true) :
      Step c request urls (Action.abort i) s
        { s with cancelled := true, failed := s.failed ++ [url],
                 workers := s.workers.set i Worker.exited }
  | cancel (s : State) (hd : s.ctxDone = false) :
      Step c request urls Action.cancel s { s with ctxDone := true }

/-- URL a worker currently holds (received and neither sent on nor dropped). -/
def Worker.held : Worker → List String
  | Worker.sel url => [url]
  | Worker.req url => [url]
  | Worker.send rp => [rp.URL]
  | _ => []

/-- URLs the main goroutine has not yet sent to `inChan`. -/
def Main.pending (urls : List String) : Main → List String
  | Main.spawn _ => urls
  | Main.feed rest => rest
  | _ => []

/-- The main goroutine is past `close(inChan)`. -/
def Main.afterFeed : Main → Bool
  | Main.spawn _ => false
  | Main.feed _ => false
  | _ => true

/-- The main goroutine is past `wg.Wait()`. -/
def Main.afterWait : Main → Bool
  | Main.spawn _ => false
  | Main.feed _ => false
  | Main.wait => false
  | _ => true

/-- The main goroutine is past `close(outChan)`. -/
def Main.afterClose : Main → Bool
  | Main.check => true
  | Main.drain => true
  | Main.returned _ _ => true
  | _ => false

/-- The main goroutine has not yet entered the drain loop. -/
def Main.beforeDrain : Main → Bool
  | Main.drain => false
  | Main.returned _ _ => false
  | _ => true

/-- The main goroutine has returned. -/
def Main.isReturned : Main → Bool
  | Main.returned _ _ => true
  | _ => false

/-- URLs that were received from `inChan` and are still in the pipeline: held by a
worker, buffered in `outChan`, or already appended to `respPload`. -/
def State.inFlight (s : State) : List String :=
  s.workers.flatMap Worker.held ++ s.outChan.map Payload.URL ++ s.respPload.map Payload.URL

/-- Control-flow invariant: channel capacities, FIFO order of the task queue, which
channels are closed at which program point, the wait barrier, and the returned values. -/
structure Inv1 (c : Collector) (urls : List String) (s : State) : Prop where
  inCap : s.inCap = urls.length
  outCap : s.outCap = urls.length
  fifo : s.taken ++ s.inChan ++ s.main.pending urls = urls
  inClosed : s.inClosed = s.main.afterFeed
  outClosed : s.outClosed = s.main.afterClose
  exited : s.main.afterWait = true → ∀ w ∈ s.workers, w = Worker.exited
  respNil : s.main.beforeDrain = true → s.respPload = []
  spawned : ∀ i, s.main = Main.spawn i → s.workers.length = i ∧ i ≤ c.OutConnPool.toNat
  pool : (∀ i, s.main ≠ Main.spawn i) → s.workers.length = c.OutConnPool.toNat
  cancelled : s.cancelled = true ↔ s.failed ≠ []
  retErr : ∀ r e, s.main = Main.returned r (some e) → r = []
  retOk : ∀ r, s.main = Main.returned r none → r = s.respPload ∧ s.outChan = []
  noLateFail : s.main = Main.drain ∨ (∃ r, s.main = Main.returned r none) → s.failed = []
  retFail : ∀ r e, s.main = Main.returned r e → s.failed ≠ [] → e ≠ none
  retDone : ∀ r e, s.main = Main.returned r (some e) → s.rCtxDone = true

/-- Token invariant: nothing in the pipeline was invented, nothing is lost while `rCtx`
is live, every payload is what `request` returned, and a failure has a cause. -/
structure Inv2 (request : String → Option String) (urls : List String) (s : State) : Prop where
  sub : ∀ u, s.inFlight.count u ≤ s.taken.count u
  perm : s.rCtxDone = false → ∀ u, s.inFlight.count u = s.taken.count u
  sendOk : ∀ rp, Worker.send rp ∈ s.workers → request rp.URL = some rp.Payload
  outOk : ∀ rp, rp ∈ s.outChan ++ s.respPload → request rp.URL = some rp.Payload
  drained : Worker.exited ∈ s.workers → s.rCtxDone = false → s.inChan = [] ∧ s.inClosed = true
  cause : s.failed ≠ [] → s.ctxDone = false → ∃ u, u ∈ urls ∧ request u = none

/-- Invariant of a pool without workers: nothing is ever fetched or collected. -/
structure InvIdle (s : State) : Prop where
  workers : s.workers = []
  calls : s.calls = []
  failed : s.failed = []
  outChan : s.outChan = []
  respPload : s.respPload = []

/-- All listed URLs are fetched successfully by `request`. -/
def allOk (request : String → Option String) (l : List String) : Prop :=
  ∀ u, u ∈ l → request u ≠ none

/-- Invariant of a pool with a single worker: the worker invokes `request` on the tasks
in queue order, and once a call fails it is the last call ever made. -/
def InvSeq (request : String → Option String) (s : State) : Prop :=
  match s.workers with
  | [] => s.calls = [] ∧ s.taken = [] ∧ s.failed = []
  | [Worker.recv] => s.calls = s.taken ∧ s.failed = [] ∧ allOk request s.calls
  | [Worker.sel url] => s.calls ++ [url] = s.taken ∧ s.failed = [] ∧ allOk request s.calls
  | [Worker.req url] =>
    s.calls = s.taken ∧ s.failed = [] ∧ ∃ done, s.calls = done ++ [url] ∧ allOk request done
  | [Worker.send _] => s.calls = s.taken ∧ s.failed = [] ∧ allOk request s.calls
  | [Worker.exited] =>
    (s.failed = [] ∧ allOk request s.calls ∧ s.calls <+: s.taken) ∨
    (∃ done url, s.calls = done ++ [url] ∧ s.calls = s.taken ∧ s.failed = [url] ∧
      allOk request done ∧ (request url = none ∨ s.ctxDone = true))
  | _ => True

/-- Progress weight of a worker. -/
def Worker.weight : Worker → Nat
  | Worker.recv => 1
  | Worker.sel _ => 5
  | Worker.req _ => 4
  | Worker.send _ => 3
  | Worker.exited => 0

/-- Progress weight of the main goroutine. -/
def Main.weight (c : Collector) (urls : List String) : Main → Nat
  | Main.spawn i => 2 * (c.OutConnPool.toNat - i) + 6 * urls.length + 6
  | Main.feed rest => 6 * rest.length + 5
  | Main.wait => 4
  | Main.closeOut => 3
  | Main.check => 2
  | Main.drain => 1
  | Main.returned _ _ => 0

/-- A number that every transition strictly decreases. -/
def State.weight (c : Collector) (urls : List String) (s : State) : Nat :=
  s.main.weight c urls + (s.workers.map Worker.weight).sum + 5 * s.inChan.length +
    s.outChan.length + (if s.ctxDone then 0 else 1)

/-- Length bound of every run of the dispatcher. -/
def runBound (c : Collector) (urls : List String) : Nat :=
  2 * c.OutConnPool.toNat + 6 * urls.length + 7

/-- The payload the dispatcher is expected to produce for a URL. -/
def expected (request : String → Option String) (url : String) : Payload :=
  { URL := url, Payload := (request url).getD "" }

end handlers

/-! ## Concrete collaborators, requests and schedules -/

namespace handlers

open semaphore

/-- Stub of `request` that answers every URL with the URL itself. -/
def echo : String → Option String := fun url => some url

/-- Stub of `request` that fails on one URL and echoes every other. -/
def failOn (bad : String) : String → Option String :=
  fun url => if url = bad then none else some url

/-- Stub collaborators: the body decodes to `urls` and the result is marshalled by
concatenating the payloads. -/
def stubEnv (request : String → Option String) (urls : List String) : Env :=
  { request := request
    decode := fun _ => Except.ok urls
    marshal := fun ps => Except.ok (String.join (ps.map Payload.Payload)) }

/-- A POST request. -/
def postReq : Request := { Method := "POST", Body := "" }

/-- The batch of the end-to-end example. -/
def batch3 : List String := ["u1", "u2", "u3"]

/-- A collector with gate capacity 100, two workers, ceiling 20 and a one second deadline. -/
def twoWorkers : Collector := NewCollector 100 2 20 1000000000

/-- A collector with a single worker. -/
def oneWorker : Collector := NewCollector 100 1 20 1000000000

/-- A collector whose pool size was configured as 0. -/
def noWorkers : Collector := NewCollector 100 0 20 1000000000

/-- A collector with ceiling 2. -/
def ceilingTwo : Collector := NewCollector 100 4 2 1000000000

/-- A collector with ceiling 2 whose gate of capacity 1 is already held. -/
def gateFull : Collector :=
  { NewCollector 1 4 2 1000000000 with reqPool := acquireN 1 (New 1 1000000000) }

/-- Two workers, three tasks, all fetched: the workers take `u1` and `u2`, the second
worker sends first, the first worker then also fetches `u3`. -/
def schedAllOk : List Action :=
  List.replicate 7 Action.main ++
    [Action.work 0, Action.work 1, Action.work 0, Action.work 1, Action.work 0, Action.work 1,
     Action.work 1, Action.work 0, Action.work 0, Action.work 0, Action.work 0, Action.work 0,
     Action.work 0, Action.work 1] ++
    List.replicate 7 Action.main

/-- Two workers, three tasks, the fetch of `u2` fails after `u1` was already sent to
`outChan`; the first worker then receives `u3` and finds `rCtx` done. -/
def schedOneFails : List Action :=
  List.replicate 7 Action.main ++
    [Action.work 0, Action.work 1, Action.work 0, Action.work 1, Action.work 0, Action.work 0,
     Action.work 1, Action.work 0, Action.work 0] ++
    List.replicate 3 Action.main

/-- One worker, tasks `a` and `b`, the fetch of `b` fails. -/
def schedSecondFails : List Action :=
  List.replicate 5 Action.main ++
    [Action.work 0, Action.work 0, Action.work 0, Action.work 0, Action.work 0, Action.work 0,
     Action.work 0] ++
    List.replicate 3 Action.main

/-- One worker, tasks `a` and `b`; the caller cancels before the worker reaches its
`select`, so the worker exits without fetching. -/
def schedCallerCancels : List Action :=
  [Action.cancel] ++ List.replicate 5 Action.main ++ [Action.work 0, Action.work 0] ++
    List.replicate 3 Action.main

/-- No worker: the main goroutine fills and closes `inChan`, passes `wg.Wait()` at
once and returns. -/
def schedNoWorkers : List Action := List.replicate 9 Action.main

/-- What `processRequests` returns under `schedAllOk`. -/
def outAllOk : Outcome :=
  { respPload := [{ URL := "u2", Payload := "u2" }, { URL := "u1", Payload := "u1" },
                  { URL := "u3", Payload := "u3" }],
    err := none, calls := ["u1", "u2", "u3"], failed := [] }

/-- What `processRequests` returns under `schedOneFails`. -/
def outOneFails : Outcome :=
  { respPload := [], err := some CtxError.Canceled, calls := ["u1", "u2"], failed := ["u2"] }

/-- What `processRequests` returns under `schedSecondFails`. -/
def outSecondFails : Outcome :=
  { respPload := [], err := some CtxError.Canceled, calls := ["a", "b"], failed := ["b"] }

/-- What `processRequests` returns under `schedCallerCancels`. -/
def outCallerCancels : Outcome :=
  { respPload := [], err := some CtxError.Canceled, calls := [], failed := [] }

/-- What `processRequests` returns under `schedNoWorkers`. -/
def outNoWorkers : Outcome := { respPload := [], err := none, calls := [], failed := [] }

/-- What `post` returns when the dispatcher ran under `schedOneFails`. -/
def postOneFails : PostResult :=
  { resp := { status := 504, body := outcomeErrMsg }, reqPool := twoWorkers.reqPool,
    acquireCalls := 1, acquired := 1, released := 1, dispatched := 1, fetched := ["u1", "u2"] }

/-- What `post` returns for a batch of three under a ceiling of 2. -/
def postOver : PostResult :=
  { resp := { status := 400, body := urlLimitErrMsg }, reqPool := ceilingTwo.reqPool,
    acquireCalls := 1, acquired := 1, released := 1, dispatched := 0, fetched := [] }

/-- What `post` returns when the gate is full. -/
def postGateFull : PostResult :=
  { resp := { status := 429, body := requestLimitErrMsg }, reqPool := gateFull.reqPool,
    acquireCalls := 1, acquired := 0, released := 0, dispatched := 0, fetched := [] }

end handlers

/-! ## Properties of the admission gate -/

namespace semaphore

theorem Acquire_cap (s : Semaphore) : (Acquire s).2.semChan.cap = s.semChan.cap := by
  unfold Acquire; split_ifs <;> rfl

theorem Release_cap (s : Semaphore) : (Release s).1.semChan.cap = s.semChan.cap := by
  unfold Release; split_ifs <;> rfl

theorem Acquire_WF (s : Semaphore) (h : WF s) : WF (Acquire s).2 := by
  unfold WF at *
  unfold Acquire
  split_ifs with h1 h2
  · simp only
    have := h.2 h1
    omega
  · simp only
    omega
  · exact h

theorem Release_WF (s : Semaphore) (h : WF s) : WF (Release s).1 := by
  unfold WF at *
  unfold Release
  split_ifs with h1
  · simp only
    omega
  · simp only
    omega

theorem New_WF (C t : Nat) : WF (New C t) := by
  simp [WF, New]

theorem applyCall_WF (s : Semaphore) (c : Call) (h : WF s) : WF (applyCall s c) := by
  cases c
  · exact Acquire_WF s h
  · exact Release_WF s h

theorem applyCall_cap (s : Semaphore) (c : Call) :
    (applyCall s c).semChan.cap = s.semChan.cap := by
  cases c
  · exact Acquire_cap s
  · exact Release_cap s

theorem applyCalls_WF_cap (cs : List Call) (s : Semaphore) (h : WF s) :
    WF (applyCalls s cs) ∧ (applyCalls s cs).semChan.cap = s.semChan.cap := by
  induction cs generalizing s with
  | nil => exact ⟨h, rfl⟩
  | cons c cs ih =>
    have := ih (applyCall s c) (applyCall_WF s c h)
    simp only [applyCalls, List.foldl_cons] at this ⊢
    exact ⟨this.1, this.2.trans (applyCall_cap s c)⟩

theorem acquireN_eq (k : Nat) (s : Semaphore) (hq : s.semChan.recvq = 0)
    (hk : s.semChan.len + k ≤ s.semChan.cap) :
    acquireN k s = { s with semChan := { s.semChan with len := s.semChan.len + k } } := by
  induction k generalizing s with
  | zero => rfl
  | succ n ih =>
    have hlt : s.semChan.len < s.semChan.cap := by omega
    have hA : (Acquire s).2 =
        { s with semChan := { s.semChan with len := s.semChan.len + 1 } } := by
      simp [Acquire, hq, hlt]
    rw [acquireN, hA, ih]
    · simp only [Semaphore.mk.injEq, Chan.mk.injEq, true_and, and_true]
      omega
    · exact hq
    · simp only
      omega

/-- C3 (gate pairing invariant). For a gate created with capacity `C`, after every
step of every finite sequence of `Acquire` and `Release` calls the number of tokens
in `semChan` is at least 0 and at most `C`. -/
theorem gate_outstanding_bounded (C t : Nat) (cs : List Call) (k : Nat) :
    0 ≤ outstanding (applyCalls (New C t) (cs.take k)) ∧
      outstanding (applyCalls (New C t) (cs.take k)) ≤ C := by
  have h := applyCalls_WF_cap (cs.take k) (New C t) (New_WF C t)
  refine ⟨Nat.zero_le _, ?_⟩
  have h1 := h.1.1
  rw [h.2] at h1
  exact h1

/-- On a gate created with capacity `C`, while the timer case is never taken: each of
the first `C` calls returns `nil` and raises the outstanding count by one, and the
call after them returns `ErrTimeout` and leaves the count at `C`. -/
theorem acquireN_capacity (C t : Nat) :
    (∀ k, k < C →
      (Acquire (acquireN k (New C t))).1 = none ∧
      outstanding (Acquire (acquireN k (New C t))).2 =
        outstanding (acquireN k (New C t)) + 1) ∧
    (Acquire (acquireN C (New C t))).1 = some Error.ErrTimeout ∧
    (Acquire (acquireN C (New C t))).2 = acquireN C (New C t) ∧
    outstanding (acquireN C (New C t)) = C := by
  refine ⟨?_, ?_, ?_, ?_⟩
  · intro k hk
    rw [acquireN_eq k (New C t) rfl (by simp [New]; omega)]
    simp [Acquire, New, outstanding, hk]
  · rw [acquireN_eq C (New C t) rfl (by simp [New])]
    simp [Acquire, New]
  · rw [acquireN_eq C (New C t) rfl (by simp [New])]
    simp [Acquire, New]
  · rw [acquireN_eq C (New C t) rfl (by simp [New])]
    simp [New, outstanding]

theorem Acquire_timeout (s : Semaphore) : (Acquire s).2.timeout = s.timeout := by
  unfold Acquire; split_ifs <;> rfl

theorem AcquireAt_live (elapsed : Nat) (timerFirst : Bool) (s : Semaphore)
    (h : elapsed < s.timeout) : AcquireAt elapsed timerFirst s = Acquire s := by
  unfold AcquireAt
  rw [if_neg]
  intro hc
  omega

theorem acquireAtN_live (os : List (Nat × Bool)) (s : Semaphore)
    (h : ∀ o, o ∈ os → o.1 < s.timeout) : acquireAtN os s = acquireN os.length s := by
  induction os generalizing s with
  | nil => rfl
  | cons o os ih =>
    have ho : o.1 < s.timeout := h o (List.mem_cons_self _ _)
    simp only [acquireAtN, List.length_cons, acquireN]
    rw [AcquireAt_live o.1 o.2 s ho]
    apply ih
    intro x hx
    rw [Acquire_timeout]
    exact h x (List.mem_cons_of_mem _ hx)

/-- C4 as amended (gate capacity). On a gate created with capacity `C` and timeout `t`
and never released, as long as `t` has not elapsed when the `select` of a call polls
its cases: each of the first `C` `Acquire` calls returns `nil` and raises the
outstanding count by one; the call after them returns `ErrTimeout`, whatever the time
elapsed at its `select`, and leaves the gate as it was, with the count at `C`. -/
theorem gate_capacity (C t : Nat) (os : List (Nat × Bool))
    (hlive : ∀ o, o ∈ os → o.1 < t) :
    (∀ o : Nat × Bool, os.length < C → o.1 < t →
      (AcquireAt o.1 o.2 (acquireAtN os (New C t))).1 = none ∧
      outstanding (AcquireAt o.1 o.2 (acquireAtN os (New C t))).2 =
        outstanding (acquireAtN os (New C t)) + 1) ∧
    (∀ o : Nat × Bool, os.length = C →
      AcquireAt o.1 o.2 (acquireAtN os (New C t)) =
        (some Error.ErrTimeout, acquireAtN os (New C t)) ∧
      outstanding (acquireAtN os (New C t)) = C) := by
  have hN : acquireAtN os (New C t) = acquireN os.length (New C t) :=
    acquireAtN_live os (New C t) hlive
  have hT : (acquireN os.length (New C t)).timeout = t := by
    rw [← hN]
    clear hN
    have : ∀ (l : List (Nat × Bool)) (s : Semaphore), (acquireAtN l s).timeout = s.timeout := by
      intro l
      induction l with
      | nil => intro s; rfl
      | cons o l ih =>
        intro s
        simp only [acquireAtN]
        rw [ih]
        unfold AcquireAt
        split_ifs
        · rfl
        · exact Acquire_timeout s
    exact this os (New C t)
  have hcap := acquireN_capacity C t
  constructor
  · intro o hlt ho
    rw [hN, AcquireAt_live o.1 o.2 _ (by rw [hT]; exact ho)]
    exact hcap.1 os.length hlt
  · intro o hlen
    rw [hN, hlen]
    refine ⟨?_, hcap.2.2.2⟩
    unfold AcquireAt
    split_ifs
    · rfl
    · exact Prod.ext hcap.2.1 hcap.2.2.1

/-- Instance of the amended gate-capacity theorem at capacity 2 with the one second
timeout: after one call the second call succeeds, after two calls the third times out. -/
theorem gate_capacity_witness :
    (1 < 2 ∧ 999 < 1000000000) ∧
    ((AcquireAt 999 true (acquireAtN [(0, true)] (New 2 1000000000))).1 = none ∧
      outstanding (AcquireAt 999 true (acquireAtN [(0, true)] (New 2 1000000000))).2 =
        outstanding (acquireAtN [(0, true)] (New 2 1000000000)) + 1) ∧
    (AcquireAt 5 false (acquireAtN [(0, true), (999, true)] (New 2 1000000000)) =
        (some Error.ErrTimeout, acquireAtN [(0, true), (999, true)] (New 2 1000000000)) ∧
      outstanding (acquireAtN [(0, true), (999, true)] (New 2 1000000000)) = 2) :=
  ⟨by decide,
    (gate_capacity 2 1000000000 [(0, true)] (by decide)).1 (999, true) (by decide) (by decide),
    (gate_capacity 2 1000000000 [(0, true), (999, true)] (by decide)).2 (5, false) rfl⟩

/-- C4, counterexample to the claim as stated. On a fresh gate of capacity 2 created
with timeout 0 no `Release` was called and both slots are free, yet the timer case is
ready as soon as the `select` polls, and when the runtime picks it the first `Acquire`
returns `ErrTimeout` and the outstanding count stays 0. -/
theorem zero_timeout_acquire_fails :
    outstanding (New 2 0) = 0 ∧
    AcquireAt 0 true (New 2 0) = (some Error.ErrTimeout, New 2 0) ∧
    (AcquireAt 0 true (New 2 0)).1 ≠ none :=
  ⟨by decide, by decide, by decide⟩

end semaphore

/-! ## Properties of the dispatcher -/

namespace handlers

open semaphore

theorem stepMain_sound {c : Collector} {request : String → Option String} {urls : List String}
    {s s' : State} (h : stepMain c urls s = some s') : Step c request urls Action.main s s' := by
  unfold stepMain at h
  split at h
  · rename_i i hm
    split_ifs at h with hlt
    · cases h; exact Step.spawn s i hm hlt
    · cases h; exact Step.startFeed s i hm hlt
  · rename_i url rest hm
    split_ifs at h with hroom
    cases h; exact Step.feed s url rest hm hroom
  · rename_i hm
    cases h; exact Step.closeIn s hm
  · rename_i hm
    split_ifs at h with hall
    cases h
    refine Step.waitDone s hm ?_
    intro w hw
    have := (List.all_eq_true.mp hall) w hw
    simpa using this
  · rename_i hm
    cases h; exact Step.closeOut s hm
  · rename_i hm
    split_ifs at h with hd
    · cases h; exact Step.checkDone s hm hd
    · cases h; exact Step.checkLive s hm (by simpa using hd)
  · rename_i hm
    split at h
    · rename_i r rest ho
      cases h; exact Step.drainOne s r rest hm ho
    · rename_i ho
      split_ifs at h with hc
      cases h; exact Step.drainEnd s hm ho hc
  · cases h

theorem stepWork_sound {c : Collector} {request : String → Option String} {urls : List String}
    {i : Nat} {s s' : State} (h : stepWork request i s = some s') :
    Step c request urls (Action.work i) s s' := by
  unfold stepWork at h
  split at h
  · rename_i hw
    split at h
    · rename_i url rest hi
      cases h; exact Step.recv s i url rest hw hi
    · rename_i hi
      split_ifs at h with hc
      cases h; exact Step.recvClosed s i hw hi hc
  · rename_i url hw
    split_ifs at h with hd
    · cases h; exact Step.selDone s i url hw hd
    · cases h; exact Step.selLive s i url hw (by simpa using hd)
  · rename_i url hw
    split at h
    · rename_i response hr
      cases h; exact Step.reqOk s i url response hw hr
    · rename_i hr
      cases h; exact Step.reqFail s i url hw hr
  · rename_i rp hw
    split_ifs at h with hroom
    cases h; exact Step.send s i rp hw hroom
  · cases h
  · cases h

theorem stepAbort_sound {c : Collector} {request : String → Option String} {urls : List String}
    {i : Nat} {s s' : State} (h : stepAbort i s = some s') :
    Step c request urls (Action.abort i) s s' := by
  unfold stepAbort at h
  split at h
  · rename_i url hw
    split_ifs at h with hd
    cases h; exact Step.abort s i url hw hd
  · cases h

theorem step_sound {c : Collector} {request : String → Option String} {urls : List String}
    {a : Action} {s s' : State} (h : step c request urls a s = some s') :
    Step c request urls a s s' := by
  cases a with
  | main => exact stepMain_sound h
  | work i => exact stepWork_sound h
  | abort i => exact stepAbort_sound h
  | cancel =>
    simp only [step, stepCancel] at h
    split_ifs at h with hd
    cases h
    exact Step.cancel s (by simpa using hd)

theorem count_flatMap_set {α β : Type} [DecidableEq β] (g : α → List β) (ws : List α) (i : Nat)
    (w w' : α) (h : ws[i]? = some w) (a : β) :
    List.count a ((ws.set i w').flatMap g) + List.count a (g w) =
      List.count a (ws.flatMap g) + List.count a (g w') := by
  induction ws generalizing i with
  | nil => simp at h
  | cons x t ih =>
    cases i with
    | zero =>
      simp only [List.getElem?_cons_zero, Option.some.injEq] at h
      subst h
      simp only [List.set_cons_zero, List.flatMap_cons, List.count_append]
      omega
    | succ n =>
      simp only [List.getElem?_cons_succ] at h
      have := ih n h
      simp only [List.set_cons_succ, List.flatMap_cons, List.count_append]
      omega

theorem sum_map_set {α : Type} (f : α → Nat) (ws : List α) (i : Nat) (w w' : α)
    (h : ws[i]? = some w) :
    ((ws.set i w').map f).sum + f w = (ws.map f).sum + f w' := by
  induction ws generalizing i with
  | nil => simp at h
  | cons x t ih =>
    cases i with
    | zero =>
      simp only [List.getElem?_cons_zero, Option.some.injEq] at h
      subst h
      simp only [List.set_cons_zero, List.map_cons, List.sum_cons]
      omega
    | succ n =>
      simp only [List.getElem?_cons_succ] at h
      have := ih n h
      simp only [List.set_cons_succ, List.map_cons, List.sum_cons]
      omega

theorem mem_set_self {α : Type} (ws : List α) (i : Nat) (w w' : α) (h : ws[i]? = some w) :
    w' ∈ ws.set i w' := by
  induction ws generalizing i with
  | nil => simp at h
  | cons x t ih =>
    cases i with
    | zero => simp
    | succ n =>
      simp only [List.getElem?_cons_succ] at h
      simp only [List.set_cons_succ, List.mem_cons]
      exact Or.inr (ih n h)

theorem all_exited_set (ws : List Worker) (i : Nat) (w : Worker) (hw : ws[i]? = some w)
    (hne : w ≠ Worker.exited) (hall : ∀ x ∈ ws, x = Worker.exited) : False :=
  hne (hall w (List.getElem?_mem hw))

theorem Inv1_init (c : Collector) (urls : List String) : Inv1 c urls (init urls) := by
  constructor <;> simp [init, Main.pending, Main.afterFeed, Main.afterClose, Main.afterWait,
    Main.beforeDrain]


theorem live_main {m : Main} (h : m.afterWait = false) :
    m ≠ Main.closeOut ∧ m ≠ Main.check ∧ m ≠ Main.drain ∧ ∀ r e, m ≠ Main.returned r e := by
  cases m <;> simp [Main.afterWait] at h ⊢

theorem not_afterWait_of_live {s : State}
    (h6 : s.main.afterWait = true → ∀ w ∈ s.workers, w = Worker.exited) {i : Nat} {w : Worker}
    (hw : s.workers[i]? = some w) (hne : w ≠ Worker.exited) : s.main.afterWait = false := by
  cases hA : s.main.afterWait
  · rfl
  · exact absurd (h6 hA w (List.getElem?_mem hw)) hne

theorem Inv1_stepMain {c : Collector} {request : String → Option String} {urls : List String}
    {s s' : State} (hI : Inv1 c urls s) (h : Step c request urls Action.main s s') :
    Inv1 c urls s' := by
  obtain ⟨h1, h2, h3, h4, h5, h6, h7, h8, h9, h10, h11, h12, h13, h14, h15⟩ := hI
  cases h with
  | spawn _ i hm hlt =>
    simp [hm, Main.pending, Main.afterFeed, Main.afterClose, Main.afterWait,
      Main.beforeDrain] at h3 h4 h5 h6 h7 h8 h9 h11 h12 h13 h14 h15
    constructor <;> (first | assumption | skip) <;>
      simp [hm, Main.pending, Main.afterFeed, Main.afterClose, Main.afterWait, Main.beforeDrain] <;>
      (first | assumption | omega | (intros; assumption) | simp_all [State.rCtxDone])
  | startFeed _ i hm hge =>
    simp [hm, Main.pending, Main.afterFeed, Main.afterClose, Main.afterWait,
      Main.beforeDrain] at h3 h4 h5 h6 h7 h8 h9 h11 h12 h13 h14 h15
    constructor <;> (first | assumption | skip) <;>
      simp [hm, Main.pending, Main.afterFeed, Main.afterClose, Main.afterWait, Main.beforeDrain] <;>
      (first | assumption | omega | (intros; assumption) | simp_all [State.rCtxDone])
  | feed _ url rest hm hroom =>
    simp [hm, Main.pending, Main.afterFeed, Main.afterClose, Main.afterWait,
      Main.beforeDrain] at h3 h4 h5 h6 h7 h8 h9 h11 h12 h13 h14 h15
    constructor <;> (first | assumption | skip) <;>
      simp [hm, Main.pending, Main.afterFeed, Main.afterClose, Main.afterWait, Main.beforeDrain] <;>
      (first | assumption | omega | (intros; assumption) | simp_all [State.rCtxDone])
  | closeIn _ hm =>
    simp [hm, Main.pending, Main.afterFeed, Main.afterClose, Main.afterWait,
      Main.beforeDrain] at h3 h4 h5 h6 h7 h8 h9 h11 h12 h13 h14 h15
    constructor <;> (first | assumption | skip) <;>
      simp [hm, Main.pending, Main.afterFeed, Main.afterClose, Main.afterWait, Main.beforeDrain] <;>
      (first | assumption | omega | (intros; assumption) | simp_all [State.rCtxDone])
  | waitDone _ hm hall =>
    simp [hm, Main.pending, Main.afterFeed, Main.afterClose, Main.afterWait,
      Main.beforeDrain] at h3 h4 h5 h6 h7 h8 h9 h11 h12 h13 h14 h15
    constructor <;> (first | assumption | skip) <;>
      simp [hm, Main.pending, Main.afterFeed, Main.afterClose, Main.afterWait, Main.beforeDrain] <;>
      (first | assumption | omega | (intros; assumption) | simp_all [State.rCtxDone])
  | closeOut _ hm =>
    simp [hm, Main.pending, Main.afterFeed, Main.afterClose, Main.afterWait,
      Main.beforeDrain] at h3 h4 h5 h6 h7 h8 h9 h11 h12 h13 h14 h15
    constructor <;> (first | assumption | skip) <;>
      simp [hm, Main.pending, Main.afterFeed, Main.afterClose, Main.afterWait, Main.beforeDrain] <;>
      (first | assumption | omega | (intros; assumption) | simp_all [State.rCtxDone])
  | checkDone _ hm hd =>
    simp [hm, Main.pending, Main.afterFeed, Main.afterClose, Main.afterWait,
      Main.beforeDrain] at h3 h4 h5 h6 h7 h8 h9 h11 h12 h13 h14 h15
    constructor <;> (first | assumption | skip) <;>
      simp [hm, Main.pending, Main.afterFeed, Main.afterClose, Main.afterWait, Main.beforeDrain] <;>
      (first | assumption | omega | (intros; assumption) | simp_all [State.rCtxDone])
  | checkLive _ hm hd =>
    simp [hm, Main.pending, Main.afterFeed, Main.afterClose, Main.afterWait,
      Main.beforeDrain] at h3 h4 h5 h6 h7 h8 h9 h11 h12 h13 h14 h15
    constructor <;> (first | assumption | skip) <;>
      simp [hm, Main.pending, Main.afterFeed, Main.afterClose, Main.afterWait, Main.beforeDrain] <;>
      (first | assumption | omega | (intros; assumption) | simp_all [State.rCtxDone])
  | drainOne _ r rest hm ho =>
    simp [hm, Main.pending, Main.afterFeed, Main.afterClose, Main.afterWait,
      Main.beforeDrain] at h3 h4 h5 h6 h7 h8 h9 h11 h12 h13 h14 h15
    constructor <;> (first | assumption | skip) <;>
      simp [hm, Main.pending, Main.afterFeed, Main.afterClose, Main.afterWait, Main.beforeDrain] <;>
      (first | assumption | omega | (intros; assumption) | simp_all [State.rCtxDone])
  | drainEnd _ hm ho hc =>
    simp [hm, Main.pending, Main.afterFeed, Main.afterClose, Main.afterWait,
      Main.beforeDrain] at h3 h4 h5 h6 h7 h8 h9 h11 h12 h13 h14 h15
    constructor <;> (first | assumption | skip) <;>
      simp [hm, Main.pending, Main.afterFeed, Main.afterClose, Main.afterWait, Main.beforeDrain] <;>
      (first | assumption | omega | (intros; assumption) | simp_all [State.rCtxDone])

theorem Inv1_stepWork {c : Collector} {request : String → Option String} {urls : List String}
    {i : Nat} {s s' : State} (hI : Inv1 c urls s) (h : Step c request urls (Action.work i) s s') :
    Inv1 c urls s' := by
  obtain ⟨h1, h2, h3, h4, h5, h6, h7, h8, h9, h10, h11, h12, h13, h14, h15⟩ := hI
  cases h with
  | recv _ i url rest hw hi =>
    have hlive := not_afterWait_of_live h6 hw (by simp)
    have key := live_main hlive
    constructor <;> (first | assumption | skip) <;>
      simp [List.length_set, key, hlive] <;> (first | assumption | (simpa [hi] using h3))
  | recvClosed _ i hw hi hc =>
    have hlive := not_afterWait_of_live h6 hw (by simp)
    have key := live_main hlive
    constructor <;> (first | assumption | skip) <;>
      simp [List.length_set, key, hlive] <;> (first | assumption)
  | selDone _ i url hw hd =>
    have hlive := not_afterWait_of_live h6 hw (by simp)
    have key := live_main hlive
    constructor <;> (first | assumption | skip) <;>
      simp [List.length_set, key, hlive] <;> (first | assumption)
  | selLive _ i url hw hd =>
    have hlive := not_afterWait_of_live h6 hw (by simp)
    have key := live_main hlive
    constructor <;> (first | assumption | skip) <;>
      simp [List.length_set, key, hlive] <;> (first | assumption)
  | reqOk _ i url response hw hr =>
    have hlive := not_afterWait_of_live h6 hw (by simp)
    have key := live_main hlive
    constructor <;> (first | assumption | skip) <;>
      simp [List.length_set, key, hlive] <;> (first | assumption)
  | reqFail _ i url hw hr =>
    have hlive := not_afterWait_of_live h6 hw (by simp)
    have key := live_main hlive
    constructor <;> (first | assumption | skip) <;>
      simp [List.length_set, key, hlive] <;> (first | assumption)
  | send _ i rp hw hroom =>
    have hlive := not_afterWait_of_live h6 hw (by simp)
    have key := live_main hlive
    constructor <;> (first | assumption | skip) <;>
      simp [List.length_set, key, hlive] <;> (first | assumption)

theorem Inv1_step {c : Collector} {request : String → Option String} {urls : List String}
    {a : Action} {s s' : State} (hI : Inv1 c urls s) (h : Step c request urls a s s') :
    Inv1 c urls s' := by
  cases a with
  | main => exact Inv1_stepMain hI h
  | work i => exact Inv1_stepWork hI h
  | abort i =>
    obtain ⟨h1, h2, h3, h4, h5, h6, h7, h8, h9, h10, h11, h12, h13, h14, h15⟩ := hI
    cases h with
    | abort _ _ url hw hd =>
      have hlive := not_afterWait_of_live h6 hw (by simp)
      have key := live_main hlive
      constructor <;> (first | assumption | skip) <;>
        simp [List.length_set, key, hlive] <;> assumption
  | cancel =>
    obtain ⟨h1, h2, h3, h4, h5, h6, h7, h8, h9, h10, h11, h12, h13, h14, h15⟩ := hI
    cases h with
    | cancel _ hd =>
      constructor <;> (first | assumption | skip)
      intro r e hr
      simp [State.rCtxDone]

theorem Inv2_init (request : String → Option String) (urls : List String) :
    Inv2 request urls (init urls) := by
  constructor <;> simp [init, State.inFlight]

theorem mem_taken_urls {c : Collector} {urls : List String} {s : State} (hI : Inv1 c urls s)
    {u : String} (hu : u ∈ s.taken) : u ∈ urls := by
  rw [← hI.fifo]
  simp [hu]

theorem held_mem_taken {request : String → Option String} {urls : List String} {s : State}
    (hJ : Inv2 request urls s) {i : Nat} {w : Worker} (hw : s.workers[i]? = some w)
    {u : String} (hu : u ∈ w.held) : u ∈ s.taken := by
  have h1 : u ∈ s.inFlight := by
    simp only [State.inFlight, List.mem_append, List.mem_flatMap]
    exact Or.inl (Or.inl ⟨w, List.getElem?_mem hw, hu⟩)
  have h2 := hJ.sub u
  have h3 : 0 < s.inFlight.count u := List.count_pos_iff.mpr h1
  exact List.count_pos_iff.mp (by omega)

theorem Inv2_stepMain {c : Collector} {request : String → Option String} {urls : List String}
    {s s' : State} (hI : Inv1 c urls s) (hJ : Inv2 request urls s)
    (h : Step c request urls Action.main s s') : Inv2 request urls s' := by
  obtain ⟨j1, j2, j3, j4, j5, j6⟩ := hJ
  cases h with
  | spawn _ i hm hlt =>
    constructor <;> (first | assumption | skip)
    · simpa [State.inFlight, Worker.held] using j1
    · simpa [State.inFlight, Worker.held] using j2
    · simpa using j3
    · simpa using j5
  | startFeed _ i hm hge => constructor <;> assumption
  | feed _ url rest hm hroom =>
    constructor <;> (first | assumption | skip)
    intro he hd
    have := (j5 he hd).2
    rw [hI.inClosed, hm] at this
    simp [Main.afterFeed] at this
  | closeIn _ hm =>
    constructor <;> (first | assumption | skip)
    intro he hd
    exact ⟨(j5 he hd).1, rfl⟩
  | waitDone _ hm hall => constructor <;> assumption
  | closeOut _ hm => constructor <;> assumption
  | checkDone _ hm hd => constructor <;> assumption
  | checkLive _ hm hd => constructor <;> assumption
  | drainOne _ r rest hm ho =>
    constructor <;> (first | assumption | skip)
    · intro u
      have := j1 u
      simp only [State.inFlight, ho, List.map_cons, List.map_append, List.count_append,
        List.count_cons, List.count_nil, List.map_nil] at this ⊢
      omega
    · intro hd u
      have := j2 hd u
      simp only [State.inFlight, ho, List.map_cons, List.map_append, List.count_append,
        List.count_cons, List.count_nil, List.map_nil] at this ⊢
      omega
    · intro rp hrp
      apply j4
      simp only [ho, List.mem_append, List.mem_cons, List.mem_singleton,
        List.not_mem_nil, or_false] at hrp ⊢
      tauto
  | drainEnd _ hm ho hc => constructor <;> assumption

theorem Inv2_stepWork {c : Collector} {request : String → Option String} {urls : List String}
    {i : Nat} {s s' : State} (hI : Inv1 c urls s) (hJ : Inv2 request urls s)
    (h : Step c request urls (Action.work i) s s') : Inv2 request urls s' := by
  have hJ0 := hJ
  obtain ⟨j1, j2, j3, j4, j5, j6⟩ := hJ
  cases h with
  | recv _ _ url rest hw hi =>
    refine ⟨?_, ?_, ?_, j4, ?_, j6⟩
    · intro u
      have := j1 u
      have hc := count_flatMap_set Worker.held s.workers i _ (Worker.sel url) hw u
      simp only [State.inFlight, Worker.held, List.count_append, List.count_cons, List.count_nil,
        List.map_append, List.map_cons, List.map_nil] at this hc ⊢
      omega
    · intro hd2 u
      have := j2 hd2 u
      have hc := count_flatMap_set Worker.held s.workers i _ (Worker.sel url) hw u
      simp only [State.inFlight, Worker.held, List.count_append, List.count_cons, List.count_nil,
        List.map_append, List.map_cons, List.map_nil] at this hc ⊢
      omega
    · intro rp hrp
      rcases List.mem_or_eq_of_mem_set hrp with h | h
      · exact j3 rp h
      · cases h
    · intro he hd
      rcases List.mem_or_eq_of_mem_set he with h | h
      · have := (j5 h hd).1
        rw [hi] at this
        cases this
      · cases h
  | recvClosed _ _ hw hi hc =>
    refine ⟨?_, ?_, ?_, j4, ?_, j6⟩
    · intro u
      have := j1 u
      have hc := count_flatMap_set Worker.held s.workers i _ (Worker.exited) hw u
      simp only [State.inFlight, Worker.held, List.count_append, List.count_cons, List.count_nil,
        List.map_append, List.map_cons, List.map_nil] at this hc ⊢
      omega
    · intro hd2 u
      have := j2 hd2 u
      have hc := count_flatMap_set Worker.held s.workers i _ (Worker.exited) hw u
      simp only [State.inFlight, Worker.held, List.count_append, List.count_cons, List.count_nil,
        List.map_append, List.map_cons, List.map_nil] at this hc ⊢
      omega
    · intro rp hrp
      rcases List.mem_or_eq_of_mem_set hrp with h | h
      · exact j3 rp h
      · cases h
    · intro _ _
      exact ⟨hi, hc⟩
  | selDone _ _ url hw hd =>
    refine ⟨?_, ?_, ?_, j4, ?_, j6⟩
    · intro u
      have := j1 u
      have hc := count_flatMap_set Worker.held s.workers i _ (Worker.exited) hw u
      simp only [State.inFlight, Worker.held, List.count_append, List.count_cons, List.count_nil,
        List.map_append, List.map_cons, List.map_nil] at this hc ⊢
      omega
    · intro hd2
      have hd3 : s.rCtxDone = false := hd2
      rw [hd] at hd3
      cases hd3
    · intro rp hrp
      rcases List.mem_or_eq_of_mem_set hrp with h | h
      · exact j3 rp h
      · cases h
    · intro _ hd2
      have hd3 : s.rCtxDone = false := hd2
      rw [hd] at hd3
      cases hd3
  | selLive _ _ url hw hd =>
    refine ⟨?_, ?_, ?_, j4, ?_, j6⟩
    · intro u
      have := j1 u
      have hc := count_flatMap_set Worker.held s.workers i _ (Worker.req url) hw u
      simp only [State.inFlight, Worker.held, List.count_append, List.count_cons, List.count_nil,
        List.map_append, List.map_cons, List.map_nil] at this hc ⊢
      omega
    · intro hd2 u
      have := j2 hd2 u
      have hc := count_flatMap_set Worker.held s.workers i _ (Worker.req url) hw u
      simp only [State.inFlight, Worker.held, List.count_append, List.count_cons, List.count_nil,
        List.map_append, List.map_cons, List.map_nil] at this hc ⊢
      omega
    · intro rp hrp
      rcases List.mem_or_eq_of_mem_set hrp with h | h
      · exact j3 rp h
      · cases h
    · intro he hd2
      rcases List.mem_or_eq_of_mem_set he with h | h
      · exact j5 h hd2
      · cases h
  | reqOk _ _ url response hw hr =>
    refine ⟨?_, ?_, ?_, j4, ?_, j6⟩
    · intro u
      have := j1 u
      have hc := count_flatMap_set Worker.held s.workers i _ (Worker.send { URL := url, Payload := response }) hw u
      simp only [State.inFlight, Worker.held, List.count_append, List.count_cons, List.count_nil,
        List.map_append, List.map_cons, List.map_nil] at this hc ⊢
      omega
    · intro hd2 u
      have := j2 hd2 u
      have hc := count_flatMap_set Worker.held s.workers i _ (Worker.send { URL := url, Payload := response }) hw u
      simp only [State.inFlight, Worker.held, List.count_append, List.count_cons, List.count_nil,
        List.map_append, List.map_cons, List.map_nil] at this hc ⊢
      omega
    · intro rp hrp
      rcases List.mem_or_eq_of_mem_set hrp with h | h
      · exact j3 rp h
      · cases h
        exact hr
    · intro he hd2
      rcases List.mem_or_eq_of_mem_set he with h | h
      · exact j5 h hd2
      · cases h
  | reqFail _ _ url hw hr =>
    refine ⟨?_, ?_, ?_, j4, ?_, ?_⟩
    · intro u
      have := j1 u
      have hc := count_flatMap_set Worker.held s.workers i _ (Worker.exited) hw u
      simp only [State.inFlight, Worker.held, List.count_append, List.count_cons, List.count_nil,
        List.map_append, List.map_cons, List.map_nil] at this hc ⊢
      omega
    · intro hd2
      simp [State.rCtxDone] at hd2
    · intro rp hrp
      rcases List.mem_or_eq_of_mem_set hrp with h | h
      · exact j3 rp h
      · cases h
    · intro _ hd2
      simp [State.rCtxDone] at hd2
    · intro _ _
      exact ⟨url, mem_taken_urls hI (held_mem_taken hJ0 hw (by simp [Worker.held])), hr⟩
  | send _ _ rp hw hroom =>
    refine ⟨?_, ?_, ?_, ?_, ?_, j6⟩
    · intro u
      have := j1 u
      have hc := count_flatMap_set Worker.held s.workers i _ (Worker.recv) hw u
      simp only [State.inFlight, Worker.held, List.count_append, List.count_cons, List.count_nil,
        List.map_append, List.map_cons, List.map_nil] at this hc ⊢
      omega
    · intro hd2 u
      have := j2 hd2 u
      have hc := count_flatMap_set Worker.held s.workers i _ (Worker.recv) hw u
      simp only [State.inFlight, Worker.held, List.count_append, List.count_cons, List.count_nil,
        List.map_append, List.map_cons, List.map_nil] at this hc ⊢
      omega
    · intro rp hrp
      rcases List.mem_or_eq_of_mem_set hrp with h | h
      · exact j3 rp h
      · cases h
    · intro p hp
      simp only [List.mem_append, List.mem_singleton] at hp
      rcases hp with (hp | hp) | hp
      · exact j4 p (List.mem_append.mpr (Or.inl hp))
      · rw [hp]
        exact j3 rp (List.getElem?_mem hw)
      · exact j4 p (List.mem_append.mpr (Or.inr hp))
    · intro he hd2
      rcases List.mem_or_eq_of_mem_set he with h | h
      · exact j5 h hd2
      · cases h

theorem Inv2_step {c : Collector} {request : String → Option String} {urls : List String}
    {a : Action} {s s' : State} (hI : Inv1 c urls s) (hJ : Inv2 request urls s)
    (h : Step c request urls a s s') : Inv2 request urls s' := by
  cases a with
  | main => exact Inv2_stepMain hI hJ h
  | work i => exact Inv2_stepWork hI hJ h
  | abort i =>
    obtain ⟨j1, j2, j3, j4, j5, j6⟩ := hJ
    cases h with
    | abort _ _ url hw hd =>
      refine ⟨?_, ?_, ?_, j4, ?_, ?_⟩
      · intro u
        have := j1 u
        have hc := count_flatMap_set Worker.held s.workers i _ Worker.exited hw u
        simp only [State.inFlight, Worker.held, List.count_append, List.count_cons,
          List.count_nil, List.map_append, List.map_cons, List.map_nil] at this hc ⊢
        omega
      · intro hd2
        simp [State.rCtxDone] at hd2
      · intro rp hrp
        rcases List.mem_or_eq_of_mem_set hrp with h | h
        · exact j3 rp h
        · cases h
      · intro _ hd2
        simp [State.rCtxDone] at hd2
      · intro _ hc
        apply j6 _ hc
        rw [← hI.cancelled]
        have hc2 : s.ctxDone = false := hc
        simpa [State.rCtxDone, hc2] using hd
  | cancel =>
    obtain ⟨j1, j2, j3, j4, j5, j6⟩ := hJ
    cases h with
    | cancel _ hd =>
      refine ⟨j1, ?_, j3, j4, ?_, ?_⟩
      · intro hd2
        simp [State.rCtxDone] at hd2
      · intro _ hd2
        simp [State.rCtxDone] at hd2
      · intro _ hc
        cases hc

theorem exec_inv {c : Collector} {request : String → Option String} {urls : List String}
    (acts : List Action) {s s' : State} (h : exec c request urls acts s = some s')
    (hI : Inv1 c urls s) (hJ : Inv2 request urls s) : Inv1 c urls s' ∧ Inv2 request urls s' := by
  induction acts generalizing s with
  | nil =>
    simp only [exec, Option.some.injEq] at h
    subst h
    exact ⟨hI, hJ⟩
  | cons a as ih =>
    simp only [exec] at h
    cases hs : step c request urls a s with
    | none => simp [hs] at h
    | some t =>
      rw [hs] at h
      have hst := step_sound hs
      exact ih h (Inv1_step hI hst) (Inv2_step hI hJ hst)

theorem reach_inv {c : Collector} {request : String → Option String} {urls : List String}
    {acts : List Action} {s : State} (h : exec c request urls acts (init urls) = some s) :
    Inv1 c urls s ∧ Inv2 request urls s :=
  exec_inv acts h (Inv1_init c urls) (Inv2_init request urls)

theorem Step_ctxDone {c : Collector} {request : String → Option String} {urls : List String}
    {a : Action} {s s' : State} (h : Step c request urls a s s') (ha : a ≠ Action.cancel) :
    s'.ctxDone = s.ctxDone := by
  cases h <;> first | rfl | exact absurd rfl ha

theorem exec_ctxDone {c : Collector} {request : String → Option String} {urls : List String}
    (acts : List Action) {s s' : State} (h : exec c request urls acts s = some s')
    (hc : Action.cancel ∉ acts) : s'.ctxDone = s.ctxDone := by
  induction acts generalizing s with
  | nil =>
    simp only [exec, Option.some.injEq] at h
    subst h
    rfl
  | cons a as ih =>
    simp only [exec] at h
    cases hs : step c request urls a s with
    | none => simp [hs] at h
    | some t =>
      rw [hs] at h
      simp only [List.mem_cons, not_or] at hc
      rw [ih h hc.2]
      exact Step_ctxDone (step_sound hs) (fun e => hc.1 e.symm)

theorem Step_weight {c : Collector} {request : String → Option String} {urls : List String}
    {a : Action} {s s' : State} (h : Step c request urls a s s') :
    s'.weight c urls < s.weight c urls := by
  cases h with
  | spawn _ i hm hlt =>
    have : i < c.OutConnPool.toNat := by omega
    simp only [State.weight, hm, Main.weight, List.map_append, List.sum_append, List.map_cons,
      List.map_nil, List.sum_cons, List.sum_nil, Worker.weight]
    omega
  | startFeed _ i hm hge =>
    simp only [State.weight, hm, Main.weight]
    omega
  | feed _ url rest hm hroom =>
    simp only [State.weight, hm, Main.weight, List.length_append, List.length_cons,
      List.length_nil]
    omega
  | closeIn _ hm =>
    simp only [State.weight, hm, Main.weight, List.length_nil]
    omega
  | waitDone _ hm hall =>
    simp only [State.weight, hm, Main.weight]
    omega
  | closeOut _ hm =>
    simp only [State.weight, hm, Main.weight]
    omega
  | checkDone _ hm hd =>
    simp only [State.weight, hm, Main.weight]
    omega
  | checkLive _ hm hd =>
    simp only [State.weight, hm, Main.weight]
    omega
  | drainOne _ r rest hm ho =>
    simp only [State.weight, hm, Main.weight, ho, List.length_cons]
    omega
  | drainEnd _ hm ho hc =>
    simp only [State.weight, hm, Main.weight]
    omega
  | recv _ i url rest hw hi =>
    have := sum_map_set Worker.weight s.workers i _ (Worker.sel url) hw
    simp only [State.weight, hi, List.length_cons, Worker.weight] at this ⊢
    omega
  | recvClosed _ i hw hi hc =>
    have := sum_map_set Worker.weight s.workers i _ Worker.exited hw
    simp only [State.weight, Worker.weight] at this ⊢
    omega
  | selDone _ i url hw hd =>
    have := sum_map_set Worker.weight s.workers i _ Worker.exited hw
    simp only [State.weight, Worker.weight] at this ⊢
    omega
  | selLive _ i url hw hd =>
    have := sum_map_set Worker.weight s.workers i _ (Worker.req url) hw
    simp only [State.weight, Worker.weight] at this ⊢
    omega
  | reqOk _ i url response hw hr =>
    have := sum_map_set Worker.weight s.workers i _
      (Worker.send { URL := url, Payload := response }) hw
    simp only [State.weight, Worker.weight] at this ⊢
    omega
  | reqFail _ i url hw hr =>
    have := sum_map_set Worker.weight s.workers i _ Worker.exited hw
    simp only [State.weight, Worker.weight] at this ⊢
    omega
  | send _ i rp hw hroom =>
    have := sum_map_set Worker.weight s.workers i _ Worker.recv hw
    simp only [State.weight, Worker.weight, List.length_append, List.length_cons,
      List.length_nil] at this ⊢
    omega
  | abort _ i url hw hd =>
    have := sum_map_set Worker.weight s.workers i _ Worker.exited hw
    simp only [State.weight, Worker.weight] at this ⊢
    omega
  | cancel _ hd =>
    simp only [State.weight, hd]
    simp

theorem exec_weight {c : Collector} {request : String → Option String} {urls : List String}
    (acts : List Action) {s s' : State} (h : exec c request urls acts s = some s') :
    s'.weight c urls + acts.length ≤ s.weight c urls := by
  induction acts generalizing s with
  | nil =>
    simp only [exec, Option.some.injEq] at h
    subst h
    simp
  | cons a as ih =>
    simp only [exec] at h
    cases hs : step c request urls a s with
    | none => simp [hs] at h
    | some t =>
      rw [hs] at h
      have h1 := ih h
      have h2 := Step_weight (step_sound hs)
      simp only [List.length_cons]
      omega

theorem run_bounded {c : Collector} {request : String → Option String} {urls : List String}
    {acts : List Action} {s : State} (h : exec c request urls acts (init urls) = some s) :
    acts.length ≤ runBound c urls := by
  have := exec_weight acts h
  simp only [State.weight, init, Main.weight, List.map_nil, List.sum_nil, List.length_nil,
    runBound] at this ⊢
  simp at this
  omega

theorem held_length_le (ws : List Worker) (w : Worker) (h : w ∈ ws) :
    w.held.length ≤ (ws.flatMap Worker.held).length := by
  induction ws with
  | nil => cases h
  | cons x t ih =>
    simp only [List.flatMap_cons, List.length_append]
    rcases List.mem_cons.mp h with h | h
    · subst h
      omega
    · have := ih h
      omega


theorem progress {c : Collector} {request : String → Option String} {urls : List String}
    {s : State} (hI : Inv1 c urls s) (hJ : Inv2 request urls s)
    (hnr : s.main.isReturned = false) :
    ∃ a s', (a = Action.main ∨ ∃ i, a = Action.work i) ∧ step c request urls a s = some s' := by
  have hlen : s.taken.length + s.inChan.length + (s.main.pending urls).length = urls.length := by
    have := congrArg List.length hI.fifo
    simpa only [List.length_append] using this
  have hfl : s.inFlight.length ≤ s.taken.length :=
    (List.subperm_ext_iff.mpr fun u _ => hJ.sub u).length_le
  cases hm : s.main with
  | spawn i =>
    refine ⟨Action.main, ?_⟩
    simp only [step, stepMain, hm, true_or, true_and]
    split_ifs <;> exact ⟨_, rfl⟩
  | feed rest =>
    refine ⟨Action.main, ?_⟩
    cases rest with
    | nil =>
      simp only [step, stepMain, hm, true_or, true_and]
      exact ⟨_, rfl⟩
    | cons url rest =>
      have hroom : s.inChan.length < s.inCap := by
        rw [hm] at hlen
        simp only [Main.pending, List.length_cons] at hlen
        rw [hI.inCap]
        omega
      simp only [step, stepMain, hm, hroom, if_true, true_or, true_and]
      exact ⟨_, rfl⟩
  | wait =>
    by_cases hall : ∀ w ∈ s.workers, w = Worker.exited
    · refine ⟨Action.main, ?_⟩
      have : (s.workers.all fun w => w == Worker.exited) = true := by
        rw [List.all_eq_true]
        intro w hw
        simp [hall w hw]
      simp only [step, stepMain, hm, this, if_true, true_or, true_and]
      exact ⟨_, rfl⟩
    · push_neg at hall
      obtain ⟨w, hw, hne⟩ := hall
      obtain ⟨i, hi⟩ := List.getElem?_of_mem hw
      refine ⟨Action.work i, ?_⟩
      have hex : ∃ s', stepWork request i s = some s' := by
        unfold stepWork
        rw [hi]
        cases w with
        | recv =>
          cases hin : s.inChan with
          | nil =>
            have : s.inClosed = true := by rw [hI.inClosed, hm]; rfl
            simp only [this, if_true]
            exact ⟨_, rfl⟩
          | cons url rest => exact ⟨_, rfl⟩
        | sel url =>
          simp only
          split_ifs <;> exact ⟨_, rfl⟩
        | req url =>
          simp only
          cases request url <;> exact ⟨_, rfl⟩
        | send rp =>
          have h1 := held_length_le s.workers _ hw
          have hroom : s.outChan.length < s.outCap := by
            rw [hI.outCap]
            simp only [State.inFlight, List.length_append, List.length_map] at hfl
            simp only [Worker.held, List.length_singleton] at h1
            omega
          simp only [hroom, if_true]
          exact ⟨_, rfl⟩
        | exited => exact absurd rfl hne
      obtain ⟨s', hs'⟩ := hex
      exact ⟨s', Or.inr ⟨i, rfl⟩, hs'⟩
  | closeOut =>
    refine ⟨Action.main, ?_⟩
    simp only [step, stepMain, hm, true_or, true_and]
    exact ⟨_, rfl⟩
  | check =>
    refine ⟨Action.main, ?_⟩
    simp only [step, stepMain, hm, true_or, true_and]
    split_ifs <;> exact ⟨_, rfl⟩
  | drain =>
    refine ⟨Action.main, ?_⟩
    simp only [step, stepMain, hm, true_or, true_and]
    cases ho : s.outChan with
    | nil =>
      have : s.outClosed = true := by rw [hI.outClosed, hm]; rfl
      simp only [this, if_true]
      exact ⟨_, rfl⟩
    | cons r rest => exact ⟨_, rfl⟩
  | returned r e =>
    rw [hm] at hnr
    cases hnr

theorem processRequests_some {c : Collector} {request : String → Option String}
    {urls : List String} {sched : List Action} {o : Outcome}
    (h : processRequests c request urls sched = some o) :
    ∃ s, exec c request urls sched (init urls) = some s ∧
      s.main = Main.returned o.respPload o.err ∧ o.calls = s.calls ∧ o.failed = s.failed := by
  unfold processRequests at h
  split at h
  · rename_i s hs
    split at h
    · rename_i r e hm
      cases h
      exact ⟨s, hs, hm, rfl, rfl⟩
    · cases h
  · cases h

theorem flatMap_held_exited (ws : List Worker) (h : ∀ w ∈ ws, w = Worker.exited) :
    ws.flatMap Worker.held = [] := by
  rw [List.flatMap_eq_nil_iff]
  intro w hw
  rw [h w hw]
  rfl

theorem returned_live {c : Collector} {request : String → Option String} {urls : List String}
    {s : State} (hI : Inv1 c urls s) (hJ : Inv2 request urls s) {r : List Payload}
    {e : Option CtxError} (hm : s.main = Main.returned r e) (hW : 1 ≤ c.OutConnPool)
    (hd : s.rCtxDone = false) :
    e = none ∧ r.Perm (urls.map (expected request)) := by
  have he : e = none := by
    cases e with
    | none => rfl
    | some x =>
      have := hI.retDone r x hm
      rw [hd] at this
      cases this
  subst he
  refine ⟨rfl, ?_⟩
  obtain ⟨hr, ho⟩ := hI.retOk r hm
  have hex : ∀ w ∈ s.workers, w = Worker.exited := hI.exited (by rw [hm]; rfl)
  have hpool : s.workers.length = c.OutConnPool.toNat :=
    hI.pool (by intro i hi; rw [hm] at hi; cases hi)
  have hmem : Worker.exited ∈ s.workers := by
    cases hws : s.workers with
    | nil =>
      rw [hws] at hpool
      simp only [List.length_nil] at hpool
      omega
    | cons w t =>
      have := hex w (by rw [hws]; exact List.mem_cons_self _ _)
      rw [this]
      exact List.mem_cons_self _ _
  have hin := (hJ.drained hmem hd).1
  have htaken : s.taken = urls := by
    have := hI.fifo
    rw [hin, hm] at this
    simpa [Main.pending] using this
  have hperm : (s.respPload.map Payload.URL).Perm urls := by
    rw [List.perm_iff_count]
    intro u
    have := hJ.perm hd u
    rw [htaken] at this
    simpa [State.inFlight, flatMap_held_exited s.workers hex, ho] using this
  have hmap : s.respPload = (s.respPload.map Payload.URL).map (expected request) := by
    rw [List.map_map]
    conv_lhs => rw [← List.map_id s.respPload]
    apply List.map_congr_left
    intro p hp
    have := hJ.outOk p (List.mem_append.mpr (Or.inr hp))
    simp [expected, this]
  rw [hr, hmap]
  exact hperm.map _

theorem reach_live {c : Collector} {request : String → Option String} {urls : List String}
    {sched : List Action} {s : State} (h : exec c request urls sched (init urls) = some s)
    (hc : Action.cancel ∉ sched) (hok : ∀ u, u ∈ urls → request u ≠ none) :
    s.rCtxDone = false := by
  obtain ⟨hI, hJ⟩ := reach_inv h
  have hctx : s.ctxDone = false := exec_ctxDone sched h hc
  have hf : s.failed = [] := by
    by_contra hne
    obtain ⟨u, hu, hn⟩ := hJ.cause hne hctx
    exact hok u hu hn
  have hcan : s.cancelled = false := by
    cases hcc : s.cancelled with
    | false => rfl
    | true => exact absurd hf (hI.cancelled.mp hcc)
  simp [State.rCtxDone, hctx, hcan]

/-- C1 (full success). With at least one worker, a `request` that succeeds on every
task of the batch and a caller that never cancels: every run of the dispatcher is
bounded in length, a run that has not returned can always continue with a step of the
main goroutine or of a worker, and a finished `processRequests` call returns a `nil`
error and exactly one `Payload` per input task, `(t, request t)`, in some order. -/
theorem full_success (c : Collector) (request : String → Option String) (urls : List String)
    (hW : 1 ≤ c.OutConnPool) (hok : ∀ u, u ∈ urls → request u ≠ none) :
    (∀ sched s, exec c request urls sched (init urls) = some s →
        sched.length ≤ runBound c urls ∧
        (s.main.isReturned = false →
          ∃ a s', (a = Action.main ∨ ∃ i, a = Action.work i) ∧
            step c request urls a s = some s')) ∧
    (∀ sched o, processRequests c request urls sched = some o → Action.cancel ∉ sched →
        o.err = none ∧ o.respPload.length = urls.length ∧
        o.respPload.Perm (urls.map (expected request))) := by
  refine ⟨fun sched s h => ⟨run_bounded h, fun hnr => ?_⟩, fun sched o h hc => ?_⟩
  · obtain ⟨hI, hJ⟩ := reach_inv h
    exact progress hI hJ hnr
  · obtain ⟨s, hs, hm, _, _⟩ := processRequests_some h
    obtain ⟨hI, hJ⟩ := reach_inv hs
    have hd := reach_live hs hc hok
    obtain ⟨he, hp⟩ := returned_live hI hJ hm hW hd
    refine ⟨he, ?_, hp⟩
    rw [hp.length_eq, List.length_map]

/-- The record `post` returns once the gate was acquired and released again. -/
theorem post_acquired {c : Collector} {env : Env} {r : Request} {sched : List Action}
    (ha : (Acquire c.reqPool).1 = none) (hq : c.reqPool.semChan.recvq = 0) :
    post c env r sched =
      (postBody c env r sched).map fun b =>
        { resp := b.1, reqPool := c.reqPool, acquireCalls := 1, acquired := 1, released := 1,
          dispatched := b.2.1, fetched := b.2.2 } := by
  have hlt : c.reqPool.semChan.len < c.reqPool.semChan.cap := by
    by_contra hge
    simp [Acquire, hq, hge] at ha
  have hA : Acquire c.reqPool =
      (none, { c.reqPool with
        semChan := { c.reqPool.semChan with len := c.reqPool.semChan.len + 1 } }) := by
    simp [Acquire, hq, hlt]
  unfold post
  rw [hA]
  simp only
  cases hb : postBody c env r sched with
  | none => rfl
  | some b =>
    obtain ⟨resp, n, log⟩ := b
    simp [Release]

/-- The record `post` returns when `Acquire` times out. -/
theorem post_timeout {c : Collector} {env : Env} {r : Request} {sched : List Action}
    {e : Error} (ha : (Acquire c.reqPool).1 = some e) :
    post c env r sched =
      some { resp := { status := 429, body := requestLimitErrMsg }, reqPool := c.reqPool,
             acquireCalls := 1, acquired := 0, released := 0, dispatched := 0, fetched := [] } := by
  have hA : Acquire c.reqPool = (some Error.ErrTimeout, c.reqPool) := by
    unfold Acquire at ha ⊢
    split_ifs at ha ⊢
    all_goals first | rfl | cases ha
  unfold post
  rw [hA]
  rfl

theorem InvIdle_init (urls : List String) : InvIdle (init urls) := by
  constructor <;> rfl

theorem InvIdle_step {c : Collector} {request : String → Option String} {urls : List String}
    {a : Action} {s s' : State} (hW : c.OutConnPool ≤ 0) (hK : InvIdle s)
    (h : Step c request urls a s s') : InvIdle s' := by
  obtain ⟨k1, k2, k3, k4, k5⟩ := hK
  have hnone : ∀ (i : Nat) (w : Worker), s.workers[i]? = some w → False := by
    intro i w hw
    rw [k1] at hw
    simp at hw
  cases h with
  | spawn _ i hm hlt => omega
  | startFeed _ i hm hge => exact ⟨k1, k2, k3, k4, k5⟩
  | feed _ url rest hm hroom => exact ⟨k1, k2, k3, k4, k5⟩
  | closeIn _ hm => exact ⟨k1, k2, k3, k4, k5⟩
  | waitDone _ hm hall => exact ⟨k1, k2, k3, k4, k5⟩
  | closeOut _ hm => exact ⟨k1, k2, k3, k4, k5⟩
  | checkDone _ hm hd => exact ⟨k1, k2, k3, k4, k5⟩
  | checkLive _ hm hd => exact ⟨k1, k2, k3, k4, k5⟩
  | drainOne _ r rest hm ho =>
    rw [k4] at ho
    cases ho
  | drainEnd _ hm ho hc => exact ⟨k1, k2, k3, k4, k5⟩
  | recv _ i url rest hw hi => exact (hnone _ _ hw).elim
  | recvClosed _ i hw hi hc => exact (hnone _ _ hw).elim
  | selDone _ i url hw hd => exact (hnone _ _ hw).elim
  | selLive _ i url hw hd => exact (hnone _ _ hw).elim
  | reqOk _ i url response hw hr => exact (hnone _ _ hw).elim
  | reqFail _ i url hw hr => exact (hnone _ _ hw).elim
  | send _ i rp hw hroom => exact (hnone _ _ hw).elim
  | abort _ i url hw hd => exact (hnone _ _ hw).elim
  | cancel _ hd => exact ⟨k1, k2, k3, k4, k5⟩

theorem exec_idle {c : Collector} {request : String → Option String} {urls : List String}
    (hW : c.OutConnPool ≤ 0) (acts : List Action) {s s' : State}
    (h : exec c request urls acts s = some s') (hK : InvIdle s) : InvIdle s' := by
  induction acts generalizing s with
  | nil =>
    simp only [exec, Option.some.injEq] at h
    subst h
    exact hK
  | cons a as ih =>
    simp only [exec] at h
    cases hs : step c request urls a s with
    | none => simp [hs] at h
    | some t =>
      rw [hs] at h
      exact ih h (InvIdle_step hW hK (step_sound hs))

/-- C10 (zero workers). With `OutConnPool = 0`, for a batch of any length: every run
of the dispatcher is bounded, a run that has not returned can always continue, and
when the caller does not cancel, a finished `processRequests` call has invoked
`request` zero times and returns an empty result list with a `nil` error, which
`post` reports as a success: status 200 with the marshalled empty list. -/
theorem zero_workers_empty_success (c : Collector) (request : String → Option String)
    (urls : List String) (hW : c.OutConnPool = 0) :
    (∀ sched s, exec c request urls sched (init urls) = some s →
        sched.length ≤ runBound c urls ∧
        (s.main.isReturned = false →
          ∃ a s', (a = Action.main ∨ ∃ i, a = Action.work i) ∧
            step c request urls a s = some s')) ∧
    (∀ sched o, processRequests c request urls sched = some o → Action.cancel ∉ sched →
        o.calls = [] ∧ o.respPload = [] ∧ o.err = none ∧
        ∀ (env : Env) (r : Request) (payload : String), env.request = request →
          env.decode r.Body = Except.ok urls → ¬ (urls.length : Int) > c.MaxURLs →
          env.marshal [] = Except.ok payload →
          (Acquire c.reqPool).1 = none → c.reqPool.semChan.recvq = 0 →
          post c env r sched =
            some { resp := { status := 200, body := payload }, reqPool := c.reqPool,
                   acquireCalls := 1, acquired := 1, released := 1, dispatched := 1,
                   fetched := [] }) := by
  refine ⟨fun sched s h => ⟨run_bounded h, fun hnr => ?_⟩, fun sched o h hc => ?_⟩
  · obtain ⟨hI, hJ⟩ := reach_inv h
    exact progress hI hJ hnr
  · have hpr := h
    obtain ⟨s, hs, hm, hcalls, _⟩ := processRequests_some h
    obtain ⟨hI, hJ⟩ := reach_inv hs
    have hK := exec_idle (le_of_eq hW) sched hs (InvIdle_init urls)
    have hctx : s.ctxDone = false := exec_ctxDone sched hs hc
    have hcan : s.cancelled = false := by
      cases hcc : s.cancelled with
      | false => rfl
      | true => exact absurd hK.failed (hI.cancelled.mp hcc)
    have herr : o.err = none := by
      cases he : o.err with
      | none => rfl
      | some x =>
        rw [he] at hm
        have := hI.retDone _ x hm
        simp [State.rCtxDone, hctx, hcan] at this
    have hres : o.respPload = [] := by
      rw [herr] at hm
      rw [(hI.retOk _ hm).1]
      exact hK.respPload
    refine ⟨hcalls.trans hK.calls, hres, herr, ?_⟩
    intro env r payload henv hdec hle hmar ha hq
    subst henv
    rw [post_acquired ha hq]
    unfold postBody
    rw [hdec]
    simp only [hle, if_false, hpr, herr, hres, hmar, Option.map_some', hcalls.trans hK.calls]

/-- A failed `request` call forces the error return with no results. -/
theorem failed_outcome {c : Collector} {request : String → Option String}
    {urls : List String} {sched : List Action} {o : Outcome}
    (h : processRequests c request urls sched = some o) (hf : o.failed ≠ []) :
    (∃ e, o.err = some e) ∧ o.respPload = [] := by
  obtain ⟨s, hs, hm, _, hfail⟩ := processRequests_some h
  obtain ⟨hI, _⟩ := reach_inv hs
  rw [hfail] at hf
  have hne := hI.retFail _ _ hm hf
  cases he : o.err with
  | none => exact absurd he hne
  | some e =>
    rw [he] at hm
    exact ⟨⟨e, rfl⟩, hI.retErr _ e hm⟩

/-- Status codes `postBody` can produce when the batch is within the ceiling. -/
theorem postBody_status {c : Collector} {env : Env} {r : Request} {sched : List Action}
    {urls : List String} (hdec : env.decode r.Body = Except.ok urls)
    (hle : ¬ (urls.length : Int) > c.MaxURLs) {b : Response × Nat × List String}
    (hb : postBody c env r sched = some b) :
    b.1.status = 504 ∨ b.1.status = 500 ∨ b.1.status = 200 := by
  unfold postBody at hb
  rw [hdec] at hb
  simp only [hle, if_false] at hb
  split at hb
  · cases hb
  · split at hb
    · cases hb
      exact Or.inl rfl
    · split at hb
      · cases hb
        exact Or.inr (Or.inl rfl)
      · cases hb
        exact Or.inr (Or.inr rfl)

/-- The body of `post` on a batch over the ceiling. -/
theorem postBody_over {c : Collector} {env : Env} {r : Request} {sched : List Action}
    {urls : List String} (hdec : env.decode r.Body = Except.ok urls)
    (hgt : (urls.length : Int) > c.MaxURLs) :
    postBody c env r sched = some ({ status := 400, body := urlLimitErrMsg }, 0, []) := by
  unfold postBody
  rw [hdec]
  simp only [hgt, if_true]
  rfl

/-- The body of `post` when the dispatcher returned an error. -/
theorem postBody_failed {c : Collector} {env : Env} {r : Request} {sched : List Action}
    {urls : List String} {o : Outcome} {e : CtxError}
    (hdec : env.decode r.Body = Except.ok urls)
    (hle : ¬ (urls.length : Int) > c.MaxURLs)
    (ho : processRequests c env.request urls sched = some o) (he : o.err = some e) :
    postBody c env r sched = some ({ status := 504, body := outcomeErrMsg }, 1, o.calls) := by
  unfold postBody
  rw [hdec]
  simp only [hle, if_false, ho, he]
  rfl

/-- C2 (fail-fast, all-or-nothing). For every batch and worker count: every run of the
dispatcher is bounded and can continue until the main goroutine returns; if a
`request` call made by a worker failed, the finished `processRequests` call returns a
non-nil error and an empty result list, and `post`, for a decoded batch within the
ceiling on an acquired gate, answers 504 with the generic outcome message only. -/
theorem fail_fast (c : Collector) (env : Env) (r : Request) (urls : List String) :
    (∀ sched s, exec c env.request urls sched (init urls) = some s →
        sched.length ≤ runBound c urls ∧
        (s.main.isReturned = false →
          ∃ a s', (a = Action.main ∨ ∃ i, a = Action.work i) ∧
            step c env.request urls a s = some s')) ∧
    (∀ sched o, processRequests c env.request urls sched = some o → o.failed ≠ [] →
        (∃ e, o.err = some e) ∧ o.respPload = [] ∧
        (env.decode r.Body = Except.ok urls → ¬ (urls.length : Int) > c.MaxURLs →
          (Acquire c.reqPool).1 = none → c.reqPool.semChan.recvq = 0 →
          ∃ pr, post c env r sched = some pr ∧
            pr.resp = { status := 504, body := outcomeErrMsg })) := by
  refine ⟨fun sched s h => ⟨run_bounded h, fun hnr => ?_⟩, fun sched o h hf => ?_⟩
  · obtain ⟨hI, hJ⟩ := reach_inv h
    exact progress hI hJ hnr
  · obtain ⟨⟨e, he⟩, hr⟩ := failed_outcome h hf
    refine ⟨⟨e, he⟩, hr, fun hdec hle ha hq => ?_⟩
    rw [post_acquired ha hq, postBody_failed hdec hle h he]
    exact ⟨_, rfl, rfl⟩

/-- C5 (scoped acquisition). On a well-formed gate (as is every gate obtained from
`New` by `Acquire` and `Release` calls), whenever `post` returns, by whichever path
(gate timeout, malformed body, oversized batch, dispatcher failure, encoding failure,
success), it has called `Acquire` once, the number of `Release` calls equals the
number of successful `Acquire` calls (0 after a timeout, otherwise 1), and the gate,
hence its outstanding count, is what it was before the call. -/
theorem scoped_release (c : Collector) (env : Env) (r : Request) (sched : List Action)
    (pr : PostResult) (hwf : WF c.reqPool) (h : post c env r sched = some pr) :
    pr.acquireCalls = 1 ∧ pr.released = pr.acquired ∧
      pr.acquired = (if (Acquire c.reqPool).1 = none then 1 else 0) ∧
      pr.reqPool = c.reqPool ∧ outstanding pr.reqPool = outstanding c.reqPool := by
  cases ha : (Acquire c.reqPool).1 with
  | some e =>
    rw [post_timeout ha] at h
    cases h
    simp
  | none =>
    by_cases hq : c.reqPool.semChan.recvq = 0
    · rw [post_acquired ha hq] at h
      cases hb : postBody c env r sched with
      | none => simp [hb] at h
      | some b =>
        rw [hb] at h
        cases h
        simp
    · exfalso
      have hpos : 0 < c.reqPool.semChan.recvq := Nat.pos_of_ne_zero hq
      have hlen := hwf.2 hpos
      unfold post at h
      simp only [Acquire, hpos, if_true] at h
      split at h
      · cases h
      · simp only [Release, hlen, lt_irrefl, if_false] at h
        cases h

/-- C6 (ceiling enforcement). For a request whose body decodes to a URL array: a
returned `post` call that acquired the gate answered 400 exactly when the array is
longer than `MaxURLs`, and then the body is `urlLimitErrMsg` and neither
`processRequests` nor `request` was called; a batch of exactly `MaxURLs` entries is
not answered 400; and on an acquired gate an oversized batch is always answered. -/
theorem ceiling_enforcement (c : Collector) (env : Env) (r : Request) (sched : List Action)
    (urls : List String) (hdec : env.decode r.Body = Except.ok urls) :
    (∀ pr, post c env r sched = some pr → pr.acquired = 1 →
      (pr.resp.status = 400 ↔ (urls.length : Int) > c.MaxURLs) ∧
      ((urls.length : Int) > c.MaxURLs →
        pr.resp.body = urlLimitErrMsg ∧ pr.dispatched = 0 ∧ pr.fetched = []) ∧
      ((urls.length : Int) = c.MaxURLs → pr.resp.status ≠ 400)) ∧
    ((Acquire c.reqPool).1 = none → c.reqPool.semChan.recvq = 0 →
      (urls.length : Int) > c.MaxURLs → ∃ pr, post c env r sched = some pr) := by
  constructor
  · intro pr h hacq
    have hbody : ∃ b, postBody c env r sched = some b ∧ pr.resp = b.1 ∧
        pr.dispatched = b.2.1 ∧ pr.fetched = b.2.2 := by
      unfold post at h
      split at h
      · cases h
        cases hacq
      · split at h
        · cases h
        · rename_i resp n log hb
          split at h
          · cases h
            exact ⟨_, hb, rfl, rfl, rfl⟩
          · cases h
    obtain ⟨b, hb, hresp, hdisp, hfet⟩ := hbody
    by_cases hgt : (urls.length : Int) > c.MaxURLs
    · rw [postBody_over hdec hgt] at hb
      cases hb
      refine ⟨?_, ?_, ?_⟩
      · rw [hresp]
        simp [hgt]
      · intro _
        exact ⟨by rw [hresp], hdisp, hfet⟩
      · intro heq
        omega
    · have hst := postBody_status hdec hgt hb
      rw [← hresp] at hst
      refine ⟨?_, fun h' => absurd h' hgt, ?_⟩
      · constructor
        · intro h4
          rcases hst with h' | h' | h' <;> omega
        · intro h'
          exact absurd h' hgt
      · intro _
        rcases hst with h' | h' | h' <;> omega
  · intro ha hq hgt
    rw [post_acquired ha hq, postBody_over hdec hgt]
    exact ⟨_, rfl⟩

/-- C7 as amended (admission precedes validation). For every request whose body decodes
to a batch longer than `MaxURLs`, `post` calls `Acquire` exactly once before looking
at the batch: when `Acquire` times out the answer is 429, and when it succeeds the
answer is 400 with `urlLimitErrMsg`, `processRequests` and `request` are never called,
and the gate is released. -/
theorem oversized_after_admission (c : Collector) (env : Env) (r : Request)
    (sched : List Action) (urls : List String) (hdec : env.decode r.Body = Except.ok urls)
    (hgt : (urls.length : Int) > c.MaxURLs) :
    ((Acquire c.reqPool).1 = some Error.ErrTimeout →
      post c env r sched =
        some { resp := { status := 429, body := requestLimitErrMsg }, reqPool := c.reqPool,
               acquireCalls := 1, acquired := 0, released := 0, dispatched := 0,
               fetched := [] }) ∧
    ((Acquire c.reqPool).1 = none → c.reqPool.semChan.recvq = 0 →
      post c env r sched =
        some { resp := { status := 400, body := urlLimitErrMsg }, reqPool := c.reqPool,
               acquireCalls := 1, acquired := 1, released := 1, dispatched := 0,
               fetched := [] }) := by
  constructor
  · intro ha
    exact post_timeout ha
  · intro ha hq
    rw [post_acquired ha hq, postBody_over hdec hgt]
    rfl

/-- C8 (what the code does at the failing input). A collector built with `maxReq = 0`
has an unbuffered gate: `Acquire` returns `ErrTimeout` and every POST is answered 429,
whatever the request and the other settings. -/
theorem zero_limit_rejects_all (maxOutConn maxURLs timeout : Nat) (env : Env) (r : Request)
    (sched : List Action) :
    (Acquire (NewCollector 0 maxOutConn maxURLs timeout).reqPool).1 = some Error.ErrTimeout ∧
    post (NewCollector 0 maxOutConn maxURLs timeout) env r sched =
      some { resp := { status := 429, body := requestLimitErrMsg },
             reqPool := (NewCollector 0 maxOutConn maxURLs timeout).reqPool,
             acquireCalls := 1, acquired := 0, released := 0, dispatched := 0,
             fetched := [] } := by
  have ha : (Acquire (NewCollector 0 maxOutConn maxURLs timeout).reqPool).1 =
      some Error.ErrTimeout := by
    simp [NewCollector, New, Acquire]
  exact ⟨ha, post_timeout ha⟩

theorem InvSeq_of_pool {request : String → Option String} {s : State}
    (h : 2 ≤ s.workers.length) : InvSeq request s := by
  unfold InvSeq
  split <;> first | trivial | (rename_i hws; rw [hws] at h; simp at h)

theorem InvSeq_init (request : String → Option String) (urls : List String) :
    InvSeq request (init urls) := by
  simp [InvSeq, init]

theorem singleton_get {w0 w : Worker} {i : Nat} (h : [w0][i]? = some w) : i = 0 ∧ w0 = w := by
  cases i with
  | zero => simpa using h
  | succ n => simp at h

theorem InvSeq_stepWork {c : Collector} {request : String → Option String}
    {urls : List String} {i : Nat} {s s' : State} (hQ : InvSeq request s)
    (h : Step c request urls (Action.work i) s s') : InvSeq request s' := by
  have hlen : s'.workers.length = s.workers.length := by
    cases h <;> simp [List.length_set]
  by_cases h2 : 2 ≤ s.workers.length
  · exact InvSeq_of_pool (by omega)
  · cases hws : s.workers with
    | nil =>
      cases h <;> rename_i hw <;> simp [hws] at hw
    | cons w0 t =>
      cases t with
      | cons w1 t => simp [hws] at h2
      | nil =>
        cases h with
        | recv _ _ url rest hw hi =>
          rw [hws] at hw
          obtain ⟨rfl, rfl⟩ := singleton_get hw
          simp only [InvSeq, hws] at hQ
          simp only [InvSeq, hws, List.set_cons_zero]
          exact ⟨by rw [hQ.1], hQ.2.1, hQ.2.2⟩
        | recvClosed _ _ hw hi hc =>
          rw [hws] at hw
          obtain ⟨rfl, rfl⟩ := singleton_get hw
          simp only [InvSeq, hws] at hQ
          simp only [InvSeq, hws, List.set_cons_zero]
          exact Or.inl ⟨hQ.2.1, hQ.2.2, by rw [hQ.1]⟩
        | selDone _ _ url hw hd =>
          rw [hws] at hw
          obtain ⟨rfl, rfl⟩ := singleton_get hw
          simp only [InvSeq, hws] at hQ
          simp only [InvSeq, hws, List.set_cons_zero]
          exact Or.inl ⟨hQ.2.1, hQ.2.2, ⟨[url], hQ.1⟩⟩
        | selLive _ _ url hw hd =>
          rw [hws] at hw
          obtain ⟨rfl, rfl⟩ := singleton_get hw
          simp only [InvSeq, hws] at hQ
          simp only [InvSeq, hws, List.set_cons_zero]
          exact ⟨hQ.1, hQ.2.1, s.calls, rfl, hQ.2.2⟩
        | reqOk _ _ url response hw hr =>
          rw [hws] at hw
          obtain ⟨rfl, rfl⟩ := singleton_get hw
          simp only [InvSeq, hws] at hQ
          simp only [InvSeq, hws, List.set_cons_zero]
          obtain ⟨h1, h2, done, h3, h4⟩ := hQ
          refine ⟨h1, h2, ?_⟩
          rw [h3]
          intro u hu
          rcases List.mem_append.mp hu with hu | hu
          · exact h4 u hu
          · rw [List.mem_singleton.mp hu, hr]
            simp
        | reqFail _ _ url hw hr =>
          rw [hws] at hw
          obtain ⟨rfl, rfl⟩ := singleton_get hw
          simp only [InvSeq, hws] at hQ
          simp only [InvSeq, hws, List.set_cons_zero]
          obtain ⟨h1, h2, done, h3, h4⟩ := hQ
          exact Or.inr ⟨done, url, h3, h1, by rw [h2]; rfl, h4, Or.inl hr⟩
        | send _ _ rp hw hroom =>
          rw [hws] at hw
          obtain ⟨rfl, rfl⟩ := singleton_get hw
          simp only [InvSeq, hws] at hQ
          simp only [InvSeq, hws, List.set_cons_zero]
          exact hQ

theorem InvSeq_step {c : Collector} {request : String → Option String} {urls : List String}
    {a : Action} {s s' : State} (hI : Inv1 c urls s) (hQ : InvSeq request s)
    (h : Step c request urls a s s') : InvSeq request s' := by
  cases a with
  | work i => exact InvSeq_stepWork hQ h
  | main =>
    cases h with
    | spawn _ i hm hlt =>
      cases hws : s.workers with
      | nil =>
        simp only [InvSeq, hws] at hQ
        simp only [InvSeq, hws, List.nil_append]
        refine ⟨by rw [hQ.1, hQ.2.1], hQ.2.2, ?_⟩
        rw [hQ.1]
        intro u hu
        cases hu
      | cons w0 t =>
        apply InvSeq_of_pool
        simp [hws]
    | startFeed _ i hm hge => exact hQ
    | feed _ url rest hm hroom => exact hQ
    | closeIn _ hm => exact hQ
    | waitDone _ hm hall => exact hQ
    | closeOut _ hm => exact hQ
    | checkDone _ hm hd => exact hQ
    | checkLive _ hm hd => exact hQ
    | drainOne _ r rest hm ho => exact hQ
    | drainEnd _ hm ho hc => exact hQ
  | abort i =>
    cases h with
    | abort _ _ url hw hd =>
      by_cases h2 : 2 ≤ s.workers.length
      · exact InvSeq_of_pool (by simpa [List.length_set] using h2)
      · cases hws : s.workers with
        | nil => simp [hws] at hw
        | cons w0 t =>
          cases t with
          | cons w1 t => simp [hws] at h2
          | nil =>
            rw [hws] at hw
            obtain ⟨rfl, rfl⟩ := singleton_get hw
            simp only [InvSeq, hws] at hQ
            simp only [InvSeq, hws, List.set_cons_zero]
            obtain ⟨h1, h2, done, h3, h4⟩ := hQ
            have hcan : s.cancelled = false := by
              cases hcc : s.cancelled with
              | false => rfl
              | true => exact absurd h2 (hI.cancelled.mp hcc)
            have hctx : s.ctxDone = true := by
              simpa [State.rCtxDone, hcan] using hd
            exact Or.inr ⟨done, url, h3, h1, by rw [h2]; rfl, h4, Or.inr hctx⟩
  | cancel =>
    cases h with
    | cancel _ hd =>
      by_cases h2 : 2 ≤ s.workers.length
      · exact InvSeq_of_pool h2
      · cases hws : s.workers with
        | nil =>
          simp only [InvSeq, hws] at hQ ⊢
          exact hQ
        | cons w0 t =>
          cases t with
          | cons w1 t => simp [hws] at h2
          | nil =>
            cases w0 <;> simp only [InvSeq, hws] at hQ ⊢ <;> try exact hQ
            rcases hQ with hQ | ⟨done, url, h1, h2, h3, h4, _⟩
            · exact Or.inl hQ
            · exact Or.inr ⟨done, url, h1, h2, h3, h4, Or.inr trivial⟩

theorem exec_seq {c : Collector} {request : String → Option String} {urls : List String}
    (acts : List Action) {s s' : State} (h : exec c request urls acts s = some s')
    (hI : Inv1 c urls s) (hQ : InvSeq request s) : InvSeq request s' := by
  induction acts generalizing s with
  | nil =>
    simp only [exec, Option.some.injEq] at h
    subst h
    exact hQ
  | cons a as ih =>
    simp only [exec] at h
    cases hs : step c request urls a s with
    | none => simp [hs] at h
    | some t =>
      rw [hs] at h
      have hst := step_sound hs
      exact ih h (Inv1_step hI hst) (InvSeq_step hI hQ hst)

theorem first_fail_unique {request : String → Option String} (done pre post : List String)
    (x u : String) (hd : allOk request done) (hx : request x = none)
    (hp : allOk request pre) (hu : request u = none)
    (h : done ++ [x] <+: pre ++ u :: post) : done = pre ∧ x = u := by
  induction done generalizing pre with
  | nil =>
    cases pre with
    | nil =>
      simp only [List.nil_append, List.cons_prefix_cons] at h
      exact ⟨rfl, h.1⟩
    | cons p ps =>
      simp only [List.nil_append, List.cons_append, List.cons_prefix_cons] at h
      exact absurd (h.1 ▸ hx) (hp p (List.mem_cons_self _ _))
  | cons d ds ih =>
    cases pre with
    | nil =>
      simp only [List.nil_append, List.cons_append, List.cons_prefix_cons] at h
      exact absurd (h.1 ▸ hu) (hd d (List.mem_cons_self _ _))
    | cons p ps =>
      simp only [List.cons_append, List.cons_prefix_cons] at h
      obtain ⟨rfl, h'⟩ := h
      have := ih ps (fun v hv => hd v (List.mem_cons_of_mem _ hv))
        (fun v hv => hp v (List.mem_cons_of_mem _ hv)) h'
      exact ⟨by rw [this.1], this.2⟩

theorem Step_calls {c : Collector} {request : String → Option String} {urls : List String}
    {a : Action} {s s' : State} (h : Step c request urls a s s') :
    s'.calls = s.calls ∨
      ∃ i url, a = Action.work i ∧ s.workers[i]? = some (Worker.sel url) ∧
        s.rCtxDone = false ∧ s'.calls = s.calls ++ [url] := by
  cases h with
  | selLive _ i url hw hd => exact Or.inr ⟨i, url, rfl, hw, hd, rfl⟩
  | _ => exact Or.inl rfl

theorem Step_exited {c : Collector} {request : String → Option String} {urls : List String}
    {a : Action} {s s' : State} (h : Step c request urls a s s') {i : Nat}
    (hi : s.workers[i]? = some Worker.exited) : s'.workers[i]? = some Worker.exited := by
  have hlt : i < s.workers.length := (List.getElem?_eq_some.mp hi).1
  have hset : ∀ (j : Nat) (w w' : Worker), s.workers[j]? = some w → w ≠ Worker.exited →
      (s.workers.set j w')[i]? = some Worker.exited := by
    intro j w w' hj hne
    have hji : j ≠ i := by
      rintro rfl
      rw [hi] at hj
      cases hj
      exact hne rfl
    rw [List.getElem?_set_ne hji]
    exact hi
  cases h with
  | spawn _ j hm hlt2 =>
    show (s.workers ++ [Worker.recv])[i]? = some Worker.exited
    rw [List.getElem?_append_left hlt]
    exact hi
  | startFeed _ j hm hge => exact hi
  | feed _ url rest hm hroom => exact hi
  | closeIn _ hm => exact hi
  | waitDone _ hm hall => exact hi
  | closeOut _ hm => exact hi
  | checkDone _ hm hd => exact hi
  | checkLive _ hm hd => exact hi
  | drainOne _ r rest hm ho => exact hi
  | drainEnd _ hm ho hc => exact hi
  | recv _ j url rest hw hin => exact hset j _ _ hw (by simp)
  | recvClosed _ j hw hin hc => exact hset j _ _ hw (by simp)
  | selDone _ j url hw hd => exact hset j _ _ hw (by simp)
  | selLive _ j url hw hd => exact hset j _ _ hw (by simp)
  | reqOk _ j url response hw hr => exact hset j _ _ hw (by simp)
  | reqFail _ j url hw hr => exact hset j _ _ hw (by simp)
  | send _ j rp hw hroom => exact hset j _ _ hw (by simp)
  | abort _ j url hw hd => exact hset j _ _ hw (by simp)
  | cancel _ hd => exact hi

theorem sequential_calls {c : Collector} {request : String → Option String}
    {urls : List String} {sched : List Action} {s : State}
    (h : exec c request urls sched (init urls) = some s) (hW : c.OutConnPool = 1)
    {r : List Payload} {e : Option CtxError} (hm : s.main = Main.returned r e)
    (hctx : s.ctxDone = false) (pre post : List String) (u : String)
    (hurls : urls = pre ++ u :: post) (hpre : allOk request pre) (hu : request u = none) :
    s.calls = pre ++ [u] := by
  obtain ⟨hI, hJ⟩ := reach_inv h
  have hQ := exec_seq sched h (Inv1_init c urls) (InvSeq_init request urls)
  have hex : ∀ w ∈ s.workers, w = Worker.exited := hI.exited (by rw [hm]; rfl)
  have hpool : s.workers.length = 1 := by
    have := hI.pool (by intro i hi; rw [hm] at hi; cases hi)
    rw [this, hW]
    rfl
  obtain ⟨w, hws⟩ : ∃ w, s.workers = [w] := List.length_eq_one.mp hpool
  have hw : w = Worker.exited := hex w (by rw [hws]; exact List.mem_singleton_self _)
  subst hw
  simp only [InvSeq, hws] at hQ
  have hpre_taken : s.taken <+: urls := by
    refine ⟨s.inChan ++ s.main.pending urls, ?_⟩
    rw [← List.append_assoc]
    exact hI.fifo
  rcases hQ with ⟨hf, _, _⟩ | ⟨done, x, h1, h2, h3, h4, h5⟩
  · exfalso
    have hcan : s.cancelled = false := by
      cases hcc : s.cancelled with
      | false => rfl
      | true => exact absurd hf (hI.cancelled.mp hcc)
    have hd : s.rCtxDone = false := by simp [State.rCtxDone, hctx, hcan]
    obtain ⟨he, hp⟩ := returned_live hI hJ hm (by omega) hd
    subst he
    have hmem : expected request u ∈ r := by
      rw [hp.mem_iff, hurls]
      simp
    rw [(hI.retOk r hm).1] at hmem
    have := hJ.outOk _ (List.mem_append.mpr (Or.inr hmem))
    simp [expected, hu] at this
  · have hx : request x = none := by
      rcases h5 with h5 | h5
      · exact h5
      · rw [hctx] at h5
        cases h5
    rw [← h2, h1, hurls] at hpre_taken
    obtain ⟨rfl, rfl⟩ := first_fail_unique done pre post x u h4 hx hpre hu hpre_taken
    exact h1

/-- C9 as amended (cooperative cancellation). In the dispatcher: `request` is invoked
only by a worker standing at its `select` with `rCtx` not done; a worker that finds
`rCtx` done at that `select` exits without invoking `request`, and an exited worker
never moves again; a worker whose `request` fails cancels `rCtx` and exits without
sending. Consequently, with one worker, a caller that never cancels and a batch whose
first failing task stands at position `pre.length + 1`, a finished `processRequests`
call has invoked `request` on exactly the tasks up to and including that one, in
order, and on no later task; every run is bounded and can continue until the main
goroutine returns. -/
theorem cooperative_cancellation (c : Collector) (request : String → Option String)
    (urls : List String) :
    (∀ a s s', step c request urls a s = some s' →
      s'.calls = s.calls ∨
        ∃ i url, a = Action.work i ∧ s.workers[i]? = some (Worker.sel url) ∧
          s.rCtxDone = false ∧ s'.calls = s.calls ++ [url]) ∧
    (∀ (s : State) (i : Nat) (url : String), s.workers[i]? = some (Worker.sel url) →
      s.rCtxDone = true →
      ∃ s', step c request urls (Action.work i) s = some s' ∧
        s'.workers[i]? = some Worker.exited ∧ s'.calls = s.calls) ∧
    (∀ (s : State) (i : Nat), s.workers[i]? = some Worker.exited →
      step c request urls (Action.work i) s = none ∧
      step c request urls (Action.abort i) s = none ∧
      ∀ a s', step c request urls a s = some s' → s'.workers[i]? = some Worker.exited) ∧
    (∀ (s : State) (i : Nat) (url : String), s.workers[i]? = some (Worker.req url) →
      request url = none →
      ∃ s', step c request urls (Action.work i) s = some s' ∧ s'.rCtxDone = true ∧
        s'.workers[i]? = some Worker.exited ∧ s'.outChan = s.outChan) ∧
    (c.OutConnPool = 1 → ∀ pre u post, urls = pre ++ u :: post → allOk request pre →
      request u = none →
      ∀ sched o, processRequests c request urls sched = some o → Action.cancel ∉ sched →
        o.calls = pre ++ [u] ∧ o.calls = urls.take (pre.length + 1)) ∧
    (∀ sched s, exec c request urls sched (init urls) = some s →
        sched.length ≤ runBound c urls ∧
        (s.main.isReturned = false →
          ∃ a s', (a = Action.main ∨ ∃ i, a = Action.work i) ∧
            step c request urls a s = some s')) := by
  refine ⟨?_, ?_, ?_, ?_, ?_, fun sched s h => ⟨run_bounded h, fun hnr => ?_⟩⟩
  · intro a s s' h
    exact Step_calls (step_sound h)
  · intro s i url hw hd
    have hlt : i < s.workers.length := (List.getElem?_eq_some.mp hw).1
    refine ⟨{ s with workers := s.workers.set i Worker.exited }, ?_, ?_, ?_⟩
    · simp only [step, stepWork, hw, hd, if_true]
    · simp [List.getElem?_set, hlt]
    · rfl
  · intro s i hw
    refine ⟨?_, ?_, ?_⟩
    · simp only [step, stepWork, hw]
    · simp only [step, stepAbort, hw]
    · intro a s' h
      exact Step_exited (step_sound h) hw
  · intro s i url hw hr
    have hlt : i < s.workers.length := (List.getElem?_eq_some.mp hw).1
    refine ⟨{ s with cancelled := true, failed := s.failed ++ [url],
                     workers := s.workers.set i Worker.exited }, ?_, ?_, ?_, ?_⟩
    · simp only [step, stepWork, hw, hr]
    · simp [State.rCtxDone]
    · simp [List.getElem?_set, hlt]
    · rfl
  · intro hW pre u post hurls hpre hu sched o h hc
    obtain ⟨s, hs, hm, hcalls, _⟩ := processRequests_some h
    have hctx : s.ctxDone = false := exec_ctxDone sched hs hc
    have := sequential_calls hs hW hm hctx pre post u hurls hpre hu
    rw [hcalls, this]
    refine ⟨rfl, ?_⟩
    rw [hurls]
    simp [List.take_append_eq_append_take]
  · obtain ⟨hI, hJ⟩ := reach_inv h
    exact progress hI hJ hnr

/-- Instance of the full-success theorem: two workers, the batch `u1, u2, u3`, the echo stub and
a schedule in which the second worker sends first. -/
theorem full_success_witness :
    1 ≤ twoWorkers.OutConnPool ∧ allOk echo batch3 ∧
    processRequests twoWorkers echo batch3 schedAllOk = some outAllOk ∧
    (outAllOk.err = none ∧ outAllOk.respPload.length = batch3.length ∧
      outAllOk.respPload.Perm (batch3.map (expected echo))) :=
  ⟨by decide, fun u _ => by simp [echo], by decide,
    (full_success twoWorkers echo batch3 (by decide) (fun u _ => by simp [echo])).2
      schedAllOk outAllOk (by decide) (by decide)⟩

/-- Instance of the zero-workers theorem: a pool of size 0 and a batch of three. -/
theorem zero_workers_empty_success_witness :
    noWorkers.OutConnPool = 0 ∧
    processRequests noWorkers echo batch3 schedNoWorkers = some outNoWorkers ∧
    (outNoWorkers.calls = [] ∧ outNoWorkers.respPload = [] ∧ outNoWorkers.err = none) ∧
    post noWorkers (stubEnv echo batch3) postReq schedNoWorkers =
      some { resp := { status := 200, body := "" }, reqPool := noWorkers.reqPool,
             acquireCalls := 1, acquired := 1, released := 1, dispatched := 1,
             fetched := [] } :=
  have h := (zero_workers_empty_success noWorkers echo batch3 (by decide)).2 schedNoWorkers
    outNoWorkers (by decide) (by decide)
  ⟨by decide, by decide, ⟨h.1, h.2.1, h.2.2.1⟩,
    h.2.2.2 (stubEnv echo batch3) postReq "" rfl rfl (by decide) rfl (by decide) (by decide)⟩

/-- Instance of the fail-fast theorem: `u1` is fetched and sent to `outChan`, then the fetch of
`u2` fails; the call returns the error with no results and `post` answers 504. -/
theorem fail_fast_witness :
    processRequests twoWorkers (failOn "u2") batch3 schedOneFails = some outOneFails ∧
    outOneFails.failed ≠ [] ∧
    (exec twoWorkers (failOn "u2") batch3 schedOneFails (init batch3)).map State.outChan =
      some [{ URL := "u1", Payload := "u1" }] ∧
    outOneFails.respPload = [] ∧
    (post twoWorkers (stubEnv (failOn "u2") batch3) postReq schedOneFails).map PostResult.resp =
      some { status := 504, body := outcomeErrMsg } := by
  have h := (fail_fast twoWorkers (stubEnv (failOn "u2") batch3) postReq batch3).2
    schedOneFails outOneFails (by decide) (by decide)
  refine ⟨by decide, by decide, by decide, h.2.1, ?_⟩
  obtain ⟨pr, h1, h2⟩ := h.2.2 rfl (by decide) (by decide) (by decide)
  rw [h1, Option.map_some', h2]

/-- Instance of the scoped-acquisition theorem on the dispatcher-failure path. -/
theorem scoped_release_witness :
    WF twoWorkers.reqPool ∧
    post twoWorkers (stubEnv (failOn "u2") batch3) postReq schedOneFails = some postOneFails ∧
    (postOneFails.acquireCalls = 1 ∧ postOneFails.released = postOneFails.acquired ∧
      postOneFails.acquired = (if (Acquire twoWorkers.reqPool).1 = none then 1 else 0) ∧
      postOneFails.reqPool = twoWorkers.reqPool ∧
      outstanding postOneFails.reqPool = outstanding twoWorkers.reqPool) :=
  ⟨by decide, by decide,
    scoped_release twoWorkers (stubEnv (failOn "u2") batch3) postReq schedOneFails
      postOneFails (by decide) (by decide)⟩

/-- Instance of the ceiling theorem: ceiling 2, batch of three, gate free. -/
theorem ceiling_enforcement_witness :
    (stubEnv echo batch3).decode postReq.Body = Except.ok batch3 ∧
    post ceilingTwo (stubEnv echo batch3) postReq [] = some postOver ∧
    postOver.acquired = 1 ∧
    ((postOver.resp.status = 400 ↔ (batch3.length : Int) > ceilingTwo.MaxURLs) ∧
      ((batch3.length : Int) > ceilingTwo.MaxURLs →
        postOver.resp.body = urlLimitErrMsg ∧ postOver.dispatched = 0 ∧
          postOver.fetched = []) ∧
      ((batch3.length : Int) = ceilingTwo.MaxURLs → postOver.resp.status ≠ 400)) :=
  ⟨rfl, by decide, rfl,
    (ceiling_enforcement ceilingTwo (stubEnv echo batch3) postReq [] batch3 rfl).1
      postOver (by decide) rfl⟩

/-- C7, counterexample to the claim as stated. The batch of three exceeds the ceiling
of 2, yet with the gate full `post` has called `Acquire` and answers 429, not 400. -/
theorem validation_precedes_admission_fails :
    (stubEnv echo batch3).decode postReq.Body = Except.ok batch3 ∧
    (batch3.length : Int) > gateFull.MaxURLs ∧
    post gateFull (stubEnv echo batch3) postReq [] = some postGateFull ∧
    postGateFull.resp.status = 429 ∧ postGateFull.acquireCalls = 1 :=
  ⟨rfl, by decide, by decide, rfl, rfl⟩

/-- Instance of the amended admission-order theorem on a full gate and on a free gate. -/
theorem oversized_after_admission_witness :
    (stubEnv echo batch3).decode postReq.Body = Except.ok batch3 ∧
    (batch3.length : Int) > gateFull.MaxURLs ∧
    (Acquire gateFull.reqPool).1 = some Error.ErrTimeout ∧
    post gateFull (stubEnv echo batch3) postReq [] =
      some { resp := { status := 429, body := requestLimitErrMsg },
             reqPool := gateFull.reqPool, acquireCalls := 1, acquired := 0, released := 0,
             dispatched := 0, fetched := [] } ∧
    post ceilingTwo (stubEnv echo batch3) postReq [] =
      some { resp := { status := 400, body := urlLimitErrMsg },
             reqPool := ceilingTwo.reqPool, acquireCalls := 1, acquired := 1, released := 1,
             dispatched := 0, fetched := [] } :=
  ⟨rfl, by decide, by decide,
    (oversized_after_admission gateFull (stubEnv echo batch3) postReq [] batch3 rfl
      (by decide)).1 (by decide),
    (oversized_after_admission ceilingTwo (stubEnv echo batch3) postReq [] batch3 rfl
      (by decide)).2 (by decide) (by decide)⟩

/-- C9, counterexample to the claim as stated. One worker, `a` succeeds and `b` is the
first failing task (position 2), but the caller cancels before the worker reaches its
`select`: `request` is invoked on no task at all, not on the first two. -/
theorem caller_cancel_cuts_fetches :
    oneWorker.OutConnPool = 1 ∧ failOn "b" "a" = some "a" ∧ failOn "b" "b" = none ∧
    processRequests oneWorker (failOn "b") ["a", "b"] schedCallerCancels =
      some outCallerCancels ∧
    outCallerCancels.calls = [] ∧ outCallerCancels.calls ≠ List.take 2 ["a", "b"] :=
  ⟨by decide, by decide, by decide, by decide, rfl, by decide⟩

/-- Instance of the amended cancellation theorem: one worker, `a` succeeds, `b` fails, the
caller does not cancel; `request` was invoked on `a` and `b`. -/
theorem cooperative_cancellation_witness :
    oneWorker.OutConnPool = 1 ∧ allOk (failOn "b") ["a"] ∧ failOn "b" "b" = none ∧
    processRequests oneWorker (failOn "b") ["a", "b"] schedSecondFails = some outSecondFails ∧
    Action.cancel ∉ schedSecondFails ∧
    (outSecondFails.calls = ["a"] ++ ["b"] ∧
      outSecondFails.calls = List.take (["a"].length + 1) ["a", "b"]) :=
  ⟨by decide, fun u hu => by simp [List.mem_singleton.mp hu, failOn], by decide, by decide,
    by decide,
    (cooperative_cancellation oneWorker (failOn "b") ["a", "b"]).2.2.2.2.1 (by decide)
      ["a"] "b" [] rfl (fun u hu => by simp [List.mem_singleton.mp hu, failOn]) (by decide)
      schedSecondFails outSecondFails (by decide) (by decide)⟩

end handlers
